import Mathlib

/-!
Verification development for the `cserver` chat server
(`src/server/{msgs,client,cserver}.py`).

The Python modules are shallowly embedded as executable Lean functions:

* `decode_msg` models `msgs.decode_msg` (the command codec);
* `recvFrom` / `inboundRun` model `CserverClient._recv` and the inbound
  loop `CserverClient.inbound_handler` (the line framer), with the socket
  abstracted as the list of results successive `recv` calls produce;
* `dispatch` models one iteration of the serial dispatcher loop in
  `cserver.main`, and `applyDirective` models the session-state side
  effects `CserverClient.outbound_handler` performs when it consumes a
  directive; `stepSync` composes the two (the dispatcher step followed by
  the delivery of the emitted directives), which is the serialized
  semantics the dispatcher's single-consumer design is built around.

Python strings are modelled as Lean `String`s manipulated through their
character lists; Python dicts are association lists (`alookup`, `aset`,
`aremove`) and Python sets of strings are duplicate-free lists
(`setAdd`, `List.erase`).
-/

namespace Chat

/-! ## Python string primitives used by the server -/

/-- One character of the class `\w` of `re.compile('\w*$')`: letters,
digits and underscore (ASCII model of the regex character class). -/
def isWordChar (c : Char) : Bool := c.isAlphanum || c = '_'

/-- `p.isPrefix-like` test on character lists, modelling `str.startswith`. -/
def listStarts : List Char → List Char → Bool
  | [], _ => true
  | _ :: _, [] => false
  | p :: ps, c :: cs => p == c && listStarts ps cs

/-- Model of Python `s.startswith(p)`. -/
def pyStartswith (s p : String) : Bool := listStarts p.toList s.toList

/-- Model of Python `str.strip()` on a character list: drop leading and
trailing whitespace. -/
def pyStripL (l : List Char) : List Char :=
  ((l.dropWhile Char.isWhitespace).reverse.dropWhile Char.isWhitespace).reverse

/-- Model of Python `s.strip()`. -/
def pyStrip (s : String) : String := ⟨pyStripL s.toList⟩

/-- Model of Python `s[n:]` for a nonnegative `n`. -/
def pyDrop (s : String) (n : Nat) : String := ⟨s.toList.drop n⟩

/-- Helper for `pySplitWs`: split a character list on whitespace,
accumulating the current word (reversed). -/
def splitWsAux : List Char → List Char → List (List Char)
  | [], acc => [acc.reverse]
  | c :: t, acc =>
    if c.isWhitespace then acc.reverse :: splitWsAux t []
    else splitWsAux t (c :: acc)

/-- Model of Python `s.split()` (no separator argument): split on runs of
whitespace and drop empty pieces. -/
def pySplitWs (s : String) : List String :=
  ((splitWsAux s.toList []).filter (· ≠ [])).map (fun l => (⟨l⟩ : String))

/-- Split a character list at each `'\n'`, keeping empty pieces
(`"a\n\nb"` gives `["a", "", "b"]`, `"a\n"` gives `["a", ""]`). -/
def splitNl : List Char → List (List Char)
  | [] => [[]]
  | c :: t =>
    if c = '\n' then [] :: splitNl t
    else
      match splitNl t with
      | [] => [[c]]
      | h :: r => (c :: h) :: r

/-- Model of Python `s.splitlines()` for strings whose only line
terminator is `'\n'` (the only terminator the chat protocol uses): like
`splitNl` but with the final empty piece produced by a trailing
newline removed. -/
def pySplitlinesL (l : List Char) : List (List Char) :=
  let ps := splitNl l
  if ps.getLastD [] = [] then ps.dropLast else ps

/-- String-level `pySplitlinesL`. -/
def pySplitlines (s : String) : List String :=
  (pySplitlinesL s.toList).map (fun l => (⟨l⟩ : String))

/-- Model of Python `'\n'.join(pieces)`. -/
def joinNl (ls : List (List Char)) : List Char :=
  List.intercalate ['\n'] ls

/-! ## `msgs.py`: the command codec -/

/-- `msgs.CserverMsgKind` together with the payload `decode_msg` pairs
with each kind (`None` payloads are dropped). -/
inductive CserverMsgKind where
  | ALL_CHAT (text : String)
  | PRIVATE_CMD (targets : List String)
  | PUBLIC_CMD
  | CREATE_ROOM_CMD (room : String)
  | ROOMS_CMD
  | JOIN_CMD (room : String)
  | LEAVE_CMD
  | QUIT_CMD
  | UNKNOWN_CMD
deriving DecidableEq, Repr

/-- Model of `msgs.decode_msg`: strip the message, recognise a command by
keyword, and attach the stripped remainder as payload
(`7 = len('/create')`, `5 = len('/join')`, `8 = len('/private')`). -/
def decode_msg (msg : String) : CserverMsgKind :=
  let m := pyStrip msg
  if pyStartswith m "/create" then .CREATE_ROOM_CMD (pyStrip (pyDrop m 7))
  else if pyStartswith m "/rooms" then .ROOMS_CMD
  else if pyStartswith m "/join" then .JOIN_CMD (pyStrip (pyDrop m 5))
  else if pyStartswith m "/leave" then .LEAVE_CMD
  else if pyStartswith m "/quit" then .QUIT_CMD
  else if pyStartswith m "/private" then .PRIVATE_CMD (pySplitWs (pyStrip (pyDrop m 8)))
  else if pyStartswith m "/public" then .PUBLIC_CMD
  else if pyStartswith m "/" then .UNKNOWN_CMD
  else .ALL_CHAT m

/-! ## `client.py`: the line framer (`_recv`) and the inbound loop -/

/-- One result of a call to `socket.recv` in `CserverClient._recv`: a
chunk of bytes (the empty chunk is the zero-byte read of a closed
connection) or a raised I/O error. -/
inductive ReadChunk where
  | data (s : String)
  | ioError
deriving DecidableEq, Repr

/-- The value a call to `CserverClient._recv` returns: a complete line
(a `str`), `None` (the zero-byte-read case) or `False` (the value the
`except` branch returns). -/
inductive RecvResult where
  | line (s : String)
  | noneVal
  | falseVal
deriving DecidableEq, Repr

/-- Model of `CserverClient._recv`: consume reads from the socket
(`chunks`), accumulating into the carry-over buffer `_recv_str` (`buf`),
until a newline appears in the buffer; then split the buffer with
`splitlines`, keep the tail rejoined with `'\n'` as the new buffer and
return the first line.  A zero-byte read returns `None`; a raised I/O
error is caught and `False` is returned.  `none` means every provided
read was consumed without producing a result (the real call would still
be blocked in `recv`). -/
def recvFrom : List ReadChunk → String → Option (RecvResult × List ReadChunk × String)
  | [], _ => none
  | .ioError :: rest, buf => some (.falseVal, rest, buf)
  | .data m :: rest, buf =>
    if m = "" then some (.noneVal, rest, buf)
    else
      let buf' := buf ++ m
      if buf'.toList.contains '\n' then
        let lines := pySplitlinesL buf'.toList
        some (.line ⟨lines.headD []⟩, rest, ⟨joinNl lines.tail⟩)
      else recvFrom rest buf'

theorem recvFrom_rest_lt {chunks : List ReadChunk} {buf : String}
    {r : RecvResult} {rest : List ReadChunk} {b : String}
    (h : recvFrom chunks buf = some (r, rest, b)) : rest.length < chunks.length := by
  induction chunks generalizing buf with
  | nil => simp [recvFrom] at h
  | cons c t ih =>
    cases c with
    | ioError =>
      simp [recvFrom] at h
      simp [h.2.1]
    | data m =>
      simp only [recvFrom] at h
      split at h
      · simp only [Option.some.injEq, Prod.mk.injEq] at h
        simp [← h.2.1]
      · split at h
        · simp only [Option.some.injEq, Prod.mk.injEq] at h
          simp [← h.2.1]
        · exact Nat.lt_trans (ih h) (by simp)

/-- One item the inbound loop `CserverClient.inbound_handler` enqueues
onto the shared inbound queue as the third component of a
`(CserverCmd.MSG, self, msg)` tuple: the line string, or the Python
value `False` when that is what `_recv` returned. -/
inductive InboundItem where
  | str (s : String)
  | boolFalse
deriving DecidableEq, Repr

/-- Loop body of `CserverClient.inbound_handler`, structured with
explicit fuel (each `_recv` result consumes at least one socket read, so
`chunks.length` iterations always suffice — see `recvFrom_rest_lt`):
call `_recv`; on `None` exit the loop; otherwise enqueue the result
(which the loop does not inspect further — a `False` is enqueued like a
line) and continue. -/
def inboundRunFuel : Nat → List ReadChunk → String → List InboundItem
  | 0, _, _ => []
  | fuel + 1, chunks, buf =>
    match recvFrom chunks buf with
    | none => []
    | some (.noneVal, _, _) => []
    | some (.line s, rest, b) => .str s :: inboundRunFuel fuel rest b
    | some (.falseVal, rest, b) => .boolFalse :: inboundRunFuel fuel rest b

/-- Model of `CserverClient.inbound_handler` over a socket's reads:
the list of items the loop enqueues onto the shared inbound queue. -/
def inboundRun (chunks : List ReadChunk) (buf : String) : List InboundItem :=
  inboundRunFuel chunks.length chunks buf

/-! ## Association lists (Python `dict`) and string sets (Python `set`) -/

/-- `d[k]` lookup returning `none` where Python raises `KeyError`. -/
def alookup {κ α : Type} [DecidableEq κ] (k : κ) : List (κ × α) → Option α
  | [] => none
  | (k', v) :: t => if k' = k then some v else alookup k t

/-- `d[k] = v`: replace the entry for `k` in place, or append a new
entry (Python dicts keep insertion order). -/
def aset {κ α : Type} [DecidableEq κ] (k : κ) (v : α) : List (κ × α) → List (κ × α)
  | [] => [(k, v)]
  | (k', v') :: t => if k' = k then (k, v) :: t else (k', v') :: aset k v t

/-- `del d[k]`: remove the entry for `k` (the first one; keys are kept
duplicate-free by the invariant). -/
def aremove {κ α : Type} [DecidableEq κ] (k : κ) : List (κ × α) → List (κ × α)
  | [] => []
  | (k', v') :: t => if k' = k then t else (k', v') :: aremove k t

/-- `s.add(x)` on a set of strings modelled as a duplicate-free list. -/
def setAdd (l : List String) (x : String) : List String :=
  if x ∈ l then l else l ++ [x]

/-! ## `client.py`: session state and outbound directive consumption -/

/-- `client.CserverClientState`. -/
inductive CserverClientState where
  | NEW
  | LOGGED_IN
  | IN_ROOM
deriving DecidableEq, Repr

/-- The logical state fields of a `CserverClient` (`state`, `username`,
`roomname`, `targets`); `None` fields are `none`. -/
structure Session where
  state : CserverClientState
  username : Option String
  roomname : Option String
  targets : Option (List String)
deriving DecidableEq, Repr

/-- A fresh `CserverClient` as built by `CserverClient.__init__`. -/
def newSession : Session := ⟨.NEW, none, none, none⟩

/-- The outbound commands of `msgs.CserverCmd` (directives the
dispatcher enqueues onto a session's outbound queue), with the payloads
the dispatcher attaches.  `NEW_CLIENT` and the inbound use of `MSG` are
modelled separately by `Event`.  The `BANNER` payload (the banner text
from the command line) carries no information the model needs and is
dropped; user names read from `client.username` are kept as the
`Option String` the field holds. -/
inductive CserverCmd where
  | BANNER
  | LOGIN
  | EXISTING_USER
  | INVALID_USERNAME
  | WELCOME_USER (name : String)
  | MSG (user : Option String) (text : String)
  | SHOW_ROOMS (rooms : List (String × List String))
  | CREATE_ROOM (user : Option String) (room : String)
  | SEE_CREATE_ROOM (user : Option String) (room : String)
  | JOIN_ROOM (user : Option String) (room : String) (occupants : List String)
  | SEE_JOIN_ROOM (user : Option String) (room : String)
  | LEAVE_ROOM (user : Option String) (room : Option String)
  | SEE_LEAVE_ROOM (user : Option String) (room : Option String)
  | INVALID_ROOM (room : String)
  | EXISTING_ROOM (room : String)
  | INVALID_ROOMNAME
  | NOT_IN_ROOM
  | PRIVATE (targets : List String)
  | PUBLIC
  | INVALID_PRIVATE (target : String)
  | INVALID_CMD
  | QUIT
deriving DecidableEq, Repr

/-- The session-state side effect `CserverClient.outbound_handler`
performs when it consumes one directive (ignoring the rendered text):
`WELCOME_USER` flips the session to `LOGGED_IN` and records the name;
`PRIVATE`/`PUBLIC` set/clear `targets`; `JOIN_ROOM` sets `IN_ROOM` and
`roomname` when the session's own username occurs in the delivered
occupant list; `LEAVE_ROOM` reverts to `LOGGED_IN` and clears `roomname`
and `targets`; `QUIT` makes the loop return (after clearing
`username`/`roomname`), terminating the session — modelled as `none`,
which removes the session.  Every other directive only renders text. -/
def applyDirective (s : Session) : CserverCmd → Option Session
  | .WELCOME_USER name => some { s with state := .LOGGED_IN, username := some name }
  | .PRIVATE ts => some { s with targets := some ts }
  | .PUBLIC => some { s with targets := none }
  | .JOIN_ROOM _ room occupants =>
    some (match s.username with
      | some u => if u ∈ occupants then { s with state := .IN_ROOM, roomname := some room } else s
      | none => s)
  | .LEAVE_ROOM _ _ => some { s with state := .LOGGED_IN, roomname := none, targets := none }
  | .QUIT => none
  | _ => some s

/-- Deliver one directive to the session owned by client `cid` (other
sessions are untouched); a `none` result of `applyDirective` removes
the session. -/
def applyOne (sessions : List (Nat × Session)) (cid : Nat) (d : CserverCmd) :
    List (Nat × Session) :=
  match sessions with
  | [] => []
  | (c, ss) :: t =>
    if c = cid then
      match applyDirective ss d with
      | some ss' => (c, ss') :: t
      | none => t
    else (c, ss) :: applyOne t cid d

/-- Deliver a list of (client, directive) pairs in order. -/
def applyDirectives (sessions : List (Nat × Session)) :
    List (Nat × CserverCmd) → List (Nat × Session)
  | [] => sessions
  | d :: r => applyDirectives (applyOne sessions d.1 d.2) r

/-! ## `cserver.py`: the dispatcher -/

/-- `_username_re = re.compile('\w*$')` used via `re.match`: every
character of the candidate name is a word character (zero characters
included — the pattern is `\w*`). -/
def username_re_match (s : String) : Bool := s.toList.all isWordChar

/-- `_roomname_re = re.compile('\w*$')` used via `re.match`. -/
def roomname_re_match (s : String) : Bool := s.toList.all isWordChar

/-- The shared state the dispatcher loop in `cserver.main` owns:
`user_clients` (username → client), `room_users` (room → set of
usernames), the persisted room set `db['rooms']`, and the live client
objects themselves (keyed by an abstract client identity, standing for
Python object identity). -/
structure ServerState where
  sessions : List (Nat × Session)
  user_clients : List (String × Nat)
  room_users : List (String × List String)
  db_rooms : List String
deriving DecidableEq, Repr

/-- An event read from the shared inbound queue: a `NEW_CLIENT`
announcement from the connection handler (with a fresh client identity)
or a `(MSG, client, line)` tuple from a client's inbound loop. -/
inductive Event where
  | newClient (cid : Nat)
  | msg (cid : Nat) (line : String)
deriving DecidableEq, Repr

/-- Insertion sort on strings, modelling Python `sorted`. -/
def insertSorted (s : String) : List String → List String
  | [] => [s]
  | t :: r => if s ≤ t then s :: t :: r else t :: insertSorted s r

/-- Python `sorted` on a list of strings. -/
def sortStrings (l : List String) : List String := l.foldr insertSorted []

/-- `cserver._get_room_list`: the rooms sorted by name, each with its
occupants sorted by name. -/
def get_room_list (room_users : List (String × List String)) :
    List (String × List String) :=
  (sortStrings (room_users.map Prod.fst)).filterMap
    (fun r => (alookup r room_users).map (fun us => (r, sortStrings us)))

/-- The clients `cserver.main` notifies of a new room: every value of
`user_clients` other than the acting client whose state is not `NEW`. -/
def broadcastCreate (st : ServerState) (cid : Nat) : List Nat :=
  st.user_clients.filterMap (fun p =>
    match alookup p.2 st.sessions with
    | some ss => if p.2 ≠ cid ∧ ss.state ≠ .NEW then some p.2 else none
    | none => none)

/-- The clients notified of a join/leave in `room`: every value of
`user_clients` other than the acting client whose state is `IN_ROOM`
and whose `roomname` equals `room`. -/
def broadcastRoom (st : ServerState) (cid : Nat) (room : String) : List Nat :=
  st.user_clients.filterMap (fun p =>
    match alookup p.2 st.sessions with
    | some ss =>
      if p.2 ≠ cid ∧ ss.state = .IN_ROOM ∧ ss.roomname = some room then some p.2 else none
    | none => none)

/-- Chat fan-out without targets: every value of `user_clients`
(including the sender) whose state is `IN_ROOM` and whose `roomname`
equals the sender's. -/
def chatRecipients (st : ServerState) (roomname : Option String) : List Nat :=
  st.user_clients.filterMap (fun p =>
    match alookup p.2 st.sessions with
    | some ss => if ss.state = .IN_ROOM ∧ ss.roomname = roomname then some p.2 else none
    | none => none)

/-- `[user_clients[t] for t in targets]`: `none` models the `KeyError`
the comprehension raises when a target is no longer registered. -/
def lookupAll (ts : List String) (uc : List (String × Nat)) : Option (List Nat) :=
  match ts with
  | [] => some []
  | t :: r =>
    match alookup t uc with
    | none => none
    | some c => (lookupAll r uc).map (c :: ·)

/-- The fan-out filter of the chat branch applied to an explicit client
list: keep the clients whose state is `IN_ROOM` and whose `roomname`
equals the sender's. -/
def filterInRoom (st : ServerState) (cids : List Nat) (roomname : Option String) : List Nat :=
  cids.filter (fun c =>
    match alookup c st.sessions with
    | some ss => decide (ss.state = .IN_ROOM ∧ ss.roomname = roomname)
    | none => false)

/-- One iteration of the dispatcher loop in `cserver.main`: consume one
inbound event, mutate the shared state, and return it together with the
(client, directive) pairs enqueued onto outbound queues, in order.
`none` models an exception escaping the loop body (a `KeyError` from
`user_clients[t]`, `room_users[...]` or `set.remove`), which is fatal to
the dispatcher loop since the body has no handler for it.  A `msg`
event must name a client created by an earlier `newClient` event; the
few places where the source reads `client.username` of a logged-in
client unwrap the option and are `none` on an (unreachable) `NEW`-state
`None`. -/
def dispatch (st : ServerState) : Event → Option (ServerState × List (Nat × CserverCmd))
  | .newClient cid =>
    match alookup cid st.sessions with
    | some _ => none
    | none =>
      some ({ st with sessions := st.sessions ++ [(cid, newSession)] },
            [(cid, .BANNER), (cid, .LOGIN)])
  | .msg cid line =>
    match alookup cid st.sessions with
    | none => none
    | some client =>
      if client.state = .NEW then
        -- the whole line, unstripped, is the candidate username
        if (alookup line st.user_clients).isSome then
          some (st, [(cid, .EXISTING_USER), (cid, .LOGIN)])
        else if username_re_match line = false then
          some (st, [(cid, .INVALID_USERNAME), (cid, .LOGIN)])
        else
          some ({ st with user_clients := aset line cid st.user_clients },
                [(cid, .WELCOME_USER line)])
      else
        match decode_msg line with
        | .ROOMS_CMD =>
          some (st, [(cid, .SHOW_ROOMS (get_room_list st.room_users))])
        | .CREATE_ROOM_CMD room =>
          if (alookup room st.room_users).isSome then
            some (st, [(cid, .EXISTING_ROOM room)])
          else if roomname_re_match room = false then
            some (st, [(cid, .INVALID_ROOMNAME)])
          else
            some ({ st with db_rooms := setAdd st.db_rooms room,
                            room_users := aset room [] st.room_users },
                  (cid, .CREATE_ROOM client.username room) ::
                    (broadcastCreate st cid).map
                      (fun c => (c, .SEE_CREATE_ROOM client.username room)))
        | .PRIVATE_CMD targets =>
          if client.state ≠ .IN_ROOM then
            some (st, [(cid, .NOT_IN_ROOM)])
          else
            match client.roomname with
            | none => none
            | some rn =>
              match alookup rn st.room_users with
              | none => none
              | some us =>
                if targets.length > 0 then
                  match targets.find? (fun t => decide (t ∉ us)) with
                  | some t => some (st, [(cid, .INVALID_PRIVATE t)])
                  | none => some (st, [(cid, .PRIVATE targets)])
                else
                  some (st, [])
        | .PUBLIC_CMD =>
          if client.state ≠ .IN_ROOM then
            some (st, [(cid, .NOT_IN_ROOM)])
          else
            some (st, [(cid, .PUBLIC)])
        | .JOIN_CMD room =>
          match alookup room st.room_users with
          | none => some (st, [(cid, .INVALID_ROOM room)])
          | some _ =>
            let leavePart : Option (ServerState × List (Nat × CserverCmd)) :=
              if client.state = .IN_ROOM then
                match client.roomname, client.username with
                | some rn, some u =>
                  match alookup rn st.room_users with
                  | none => none
                  | some us =>
                    if u ∈ us then
                      some ({ st with room_users := aset rn (us.erase u) st.room_users },
                            (cid, .LEAVE_ROOM client.username client.roomname) ::
                              (broadcastRoom st cid rn).map
                                (fun c => (c, .SEE_LEAVE_ROOM client.username client.roomname)))
                    else none
                | _, _ => none
              else some (st, [])
            match leavePart with
            | none => none
            | some (st1, ds1) =>
              match alookup room st1.room_users, client.username with
              | some us2, some u =>
                some ({ st1 with room_users := aset room (setAdd us2 u) st1.room_users },
                      ds1 ++ (cid, .JOIN_ROOM client.username room (setAdd us2 u)) ::
                        (broadcastRoom st cid room).map
                          (fun c => (c, .SEE_JOIN_ROOM client.username room)))
              | _, _ => none
        | .LEAVE_CMD =>
          if client.state ≠ .IN_ROOM then
            some (st, [(cid, .NOT_IN_ROOM)])
          else
            match client.roomname, client.username with
            | some rn, some u =>
              match alookup rn st.room_users with
              | none => none
              | some us =>
                if u ∈ us then
                  some ({ st with room_users := aset rn (us.erase u) st.room_users },
                        (cid, .LEAVE_ROOM client.username client.roomname) ::
                          (broadcastRoom st cid rn).map
                            (fun c => (c, .SEE_LEAVE_ROOM client.username client.roomname)))
                else none
            | _, _ => none
        | .QUIT_CMD =>
          let leavePart : Option (ServerState × List (Nat × CserverCmd)) :=
            if client.state = .IN_ROOM then
              match client.roomname, client.username with
              | some rn, some u =>
                match alookup rn st.room_users with
                | none => none
                | some us =>
                  if u ∈ us then
                    some ({ st with room_users := aset rn (us.erase u) st.room_users },
                          (cid, .LEAVE_ROOM client.username client.roomname) ::
                            (broadcastRoom st cid rn).map
                              (fun c => (c, .SEE_LEAVE_ROOM client.username client.roomname)))
                  else none
              | _, _ => none
            else some (st, [])
          match leavePart with
          | none => none
          | some (st1, ds1) =>
            let uc' :=
              match client.username with
              | some u =>
                if (alookup u st1.user_clients).isSome then aremove u st1.user_clients
                else st1.user_clients
              | none => st1.user_clients
            some ({ st1 with user_clients := uc' }, ds1 ++ [(cid, .QUIT)])
        | .ALL_CHAT text =>
          if client.state ≠ .IN_ROOM then
            some (st, [(cid, .NOT_IN_ROOM)])
          else
            match client.targets with
            | none =>
              some (st, (chatRecipients st client.roomname).map
                          (fun c => (c, .MSG client.username text)))
            | some ts =>
              match lookupAll ts st.user_clients with
              | none => none
              | some tcids =>
                some (st, (filterInRoom st (tcids ++ [cid]) client.roomname).map
                            (fun c => (c, .MSG client.username text)))
        | .UNKNOWN_CMD =>
          some (st, [(cid, .INVALID_CMD)])

/-- The serialized semantics: the dispatcher step followed by every
emitted directive being consumed by its session's outbound loop. -/
def stepSync (st : ServerState) (e : Event) : Option ServerState :=
  (dispatch st e).map
    (fun p => { p.1 with sessions := applyDirectives p.1.sessions p.2 })

/-- The state `cserver.main` starts its loop with: no clients, no users,
one empty occupancy set per persisted room. -/
def initState (rooms : List String) : ServerState :=
  { sessions := []
    user_clients := []
    room_users := rooms.map (fun r => (r, []))
    db_rooms := rooms }

/-- Process a sequence of inbound events under the serialized
semantics; `none` once any step is fatal. -/
def reach (st : ServerState) : List Event → Option ServerState
  | [] => some st
  | e :: es =>
    match stepSync st e with
    | none => none
    | some st' => reach st' es

/-! ## Lemmas about the dictionary and set primitives -/

section AssocLemmas

variable {κ α : Type} [DecidableEq κ]

@[simp] theorem alookup_nil (k : κ) : alookup k ([] : List (κ × α)) = none := rfl

@[simp] theorem alookup_cons (k k' : κ) (v : α) (t : List (κ × α)) :
    alookup k ((k', v) :: t) = if k' = k then some v else alookup k t := rfl

theorem mem_of_alookup {k : κ} {v : α} {l : List (κ × α)}
    (h : alookup k l = some v) : (k, v) ∈ l := by
  induction l with
  | nil => simp at h
  | cons p t ih =>
    obtain ⟨k', v'⟩ := p
    by_cases hk : k' = k
    · subst hk; simp at h; simp [h]
    · simp [alookup, hk] at h
      exact List.mem_cons_of_mem _ (ih h)

theorem alookup_eq_none_iff {k : κ} {l : List (κ × α)} :
    alookup k l = none ↔ k ∉ l.map Prod.fst := by
  induction l with
  | nil => simp
  | cons p t ih =>
    obtain ⟨k', v'⟩ := p
    by_cases hk : k' = k
    · subst hk; simp
    · simp [alookup, hk, ih, Ne.symm hk]

theorem alookup_mem_keys {k : κ} {v : α} {l : List (κ × α)}
    (h : alookup k l = some v) : k ∈ l.map Prod.fst := by
  by_contra hc
  rw [← alookup_eq_none_iff] at hc
  simp [hc] at h

theorem alookup_of_mem_nodup {k : κ} {v : α} {l : List (κ × α)}
    (nd : (l.map Prod.fst).Nodup) (h : (k, v) ∈ l) : alookup k l = some v := by
  induction l with
  | nil => simp at h
  | cons p t ih =>
    obtain ⟨k', v'⟩ := p
    simp only [List.map_cons, List.nodup_cons] at nd
    rcases List.mem_cons.mp h with heq | hmem
    · cases heq; simp
    · have hk : k' ≠ k := by
        intro hkk
        subst hkk
        exact nd.1 (List.mem_map.mpr ⟨(k', v), hmem, rfl⟩)
      simp [alookup, hk, ih nd.2 hmem]

theorem alookup_isSome_iff {k : κ} {l : List (κ × α)} :
    (alookup k l).isSome = true ↔ k ∈ l.map Prod.fst := by
  rcases h : alookup k l with _ | v
  · simpa using alookup_eq_none_iff.mp h
  · simpa using alookup_mem_keys h

theorem aset_of_not_mem {k : κ} {v : α} {l : List (κ × α)}
    (h : k ∉ l.map Prod.fst) : aset k v l = l ++ [(k, v)] := by
  induction l with
  | nil => rfl
  | cons p t ih =>
    obtain ⟨k', v'⟩ := p
    have h1 : k' ≠ k := fun he => h (by simp [he])
    have h2 : k ∉ t.map Prod.fst := fun hm => h (by simp [hm])
    simp [aset, h1, ih h2]

theorem alookup_aset_self (k : κ) (v : α) (l : List (κ × α)) :
    alookup k (aset k v l) = some v := by
  induction l with
  | nil => simp [aset]
  | cons p t ih =>
    obtain ⟨k', v'⟩ := p
    by_cases hk : k' = k
    · subst hk; simp [aset]
    · simp [aset, hk, ih]

theorem alookup_aset_ne {k k' : κ} (h : k' ≠ k) (v : α) (l : List (κ × α)) :
    alookup k' (aset k v l) = alookup k' l := by
  induction l with
  | nil =>
    simp only [aset, alookup_cons, alookup_nil]
    rw [if_neg (fun hh => h hh.symm)]
  | cons p t ih =>
    obtain ⟨k'', v''⟩ := p
    by_cases hk : k'' = k
    · subst hk
      rw [show aset k'' v ((k'', v'') :: t) = (k'', v) :: t from by simp [aset],
        alookup_cons, alookup_cons, if_neg (fun hh => h hh.symm),
        if_neg (fun hh => h hh.symm)]
    · rw [show aset k v ((k'', v'') :: t) = (k'', v'') :: aset k v t from by
        simp [aset, hk], alookup_cons, alookup_cons]
      rw [ih]

theorem keys_aset_of_mem {k : κ} {v : α} {l : List (κ × α)}
    (h : k ∈ l.map Prod.fst) : (aset k v l).map Prod.fst = l.map Prod.fst := by
  induction l with
  | nil => simp at h
  | cons p t ih =>
    obtain ⟨k', v'⟩ := p
    by_cases hk : k' = k
    · subst hk; simp [aset]
    · have h2 : k ∈ t.map Prod.fst := by
        rw [List.map_cons] at h
        rcases List.mem_cons.mp h with h1 | h1
        · exact absurd h1.symm hk
        · exact h1
      simp [aset, hk, ih h2]

theorem mem_aset_iff {k k' : κ} {v v' : α} {l : List (κ × α)}
    (nd : (l.map Prod.fst).Nodup) :
    (k', v') ∈ aset k v l ↔ (k' = k ∧ v' = v) ∨ (k' ≠ k ∧ (k', v') ∈ l) := by
  induction l with
  | nil =>
    constructor
    · intro hm
      rw [show aset k v ([] : List (κ × α)) = [(k, v)] from rfl] at hm
      rcases List.mem_cons.mp hm with h1 | h1
      · exact Or.inl ⟨congrArg Prod.fst h1, congrArg Prod.snd h1⟩
      · simp at h1
    · rintro (⟨rfl, rfl⟩ | ⟨_, hmem⟩)
      · exact List.mem_cons_self _ _
      · simp at hmem
  | cons p t ih =>
    obtain ⟨k'', v''⟩ := p
    rw [List.map_cons, List.nodup_cons] at nd
    have hknot : ∀ w : α, (k'', w) ∉ t :=
      fun w hw => nd.1 (List.mem_map.mpr ⟨(k'', w), hw, rfl⟩)
    by_cases hk : k'' = k
    · subst hk
      rw [show aset k'' v ((k'', v'') :: t) = (k'', v) :: t from by simp [aset]]
      constructor
      · intro hm
        rcases List.mem_cons.mp hm with h1 | h1
        · exact Or.inl ⟨congrArg Prod.fst h1, congrArg Prod.snd h1⟩
        · refine Or.inr ⟨fun he => ?_, List.mem_cons_of_mem _ h1⟩
          subst he
          exact hknot v' h1
      · rintro (⟨rfl, rfl⟩ | ⟨hne, hm⟩)
        · exact List.mem_cons_self _ _
        · rcases List.mem_cons.mp hm with h1 | h1
          · exact absurd (congrArg Prod.fst h1) hne
          · exact List.mem_cons_of_mem _ h1
    · rw [show aset k v ((k'', v'') :: t) = (k'', v'') :: aset k v t from by simp [aset, hk]]
      constructor
      · intro hm
        rcases List.mem_cons.mp hm with h1 | h1
        · have h1a : k' = k'' := congrArg Prod.fst h1
          exact Or.inr ⟨fun he => hk (h1a.symm.trans he), List.mem_cons.mpr (Or.inl h1)⟩
        · rcases (ih nd.2).mp h1 with ⟨h2, h3⟩ | ⟨h2, h3⟩
          · exact Or.inl ⟨h2, h3⟩
          · exact Or.inr ⟨h2, List.mem_cons_of_mem _ h3⟩
      · rintro (⟨rfl, rfl⟩ | ⟨hne, hm⟩)
        · exact List.mem_cons_of_mem _ ((ih nd.2).mpr (Or.inl ⟨rfl, rfl⟩))
        · rcases List.mem_cons.mp hm with h1 | h1
          · exact List.mem_cons.mpr (Or.inl h1)
          · exact List.mem_cons_of_mem _ ((ih nd.2).mpr (Or.inr ⟨hne, h1⟩))

theorem nodup_keys_aset {k : κ} {v : α} {l : List (κ × α)}
    (nd : (l.map Prod.fst).Nodup) : ((aset k v l).map Prod.fst).Nodup := by
  by_cases h : k ∈ l.map Prod.fst
  · rw [keys_aset_of_mem h]; exact nd
  · rw [aset_of_not_mem h]
    simpa using List.Nodup.append nd (by simp) (by simpa using h)

theorem aremove_sublist (k : κ) (l : List (κ × α)) : (aremove k l).Sublist l := by
  induction l with
  | nil => simp [aremove]
  | cons p t ih =>
    obtain ⟨k', v'⟩ := p
    by_cases hk : k' = k
    · simp [aremove, hk]
    · simpa [aremove, hk] using ih

theorem mem_aremove_iff {k k' : κ} {v' : α} {l : List (κ × α)}
    (nd : (l.map Prod.fst).Nodup) :
    (k', v') ∈ aremove k l ↔ (k', v') ∈ l ∧ k' ≠ k := by
  induction l with
  | nil => simp [aremove]
  | cons p t ih =>
    obtain ⟨k'', v''⟩ := p
    rw [List.map_cons, List.nodup_cons] at nd
    have hknot : ∀ w : α, (k'', w) ∉ t :=
      fun w hw => nd.1 (List.mem_map.mpr ⟨(k'', w), hw, rfl⟩)
    by_cases hk : k'' = k
    · subst hk
      rw [show aremove k'' ((k'', v'') :: t) = t from by simp [aremove]]
      constructor
      · intro hmem
        refine ⟨List.mem_cons_of_mem _ hmem, fun hkk => ?_⟩
        subst hkk
        exact hknot v' hmem
      · rintro ⟨hm, hne⟩
        rcases List.mem_cons.mp hm with h1 | h1
        · exact absurd (congrArg Prod.fst h1) hne
        · exact h1
    · rw [show aremove k ((k'', v'') :: t) = (k'', v'') :: aremove k t from by
        simp [aremove, hk]]
      constructor
      · intro hm
        rcases List.mem_cons.mp hm with h1 | h1
        · have h1a : k' = k'' := congrArg Prod.fst h1
          exact ⟨List.mem_cons.mpr (Or.inl h1), fun he => hk (h1a.symm.trans he)⟩
        · rcases (ih nd.2).mp h1 with ⟨h2, h3⟩
          exact ⟨List.mem_cons_of_mem _ h2, h3⟩
      · rintro ⟨hm, hne⟩
        rcases List.mem_cons.mp hm with h1 | h1
        · exact List.mem_cons.mpr (Or.inl h1)
        · exact List.mem_cons_of_mem _ ((ih nd.2).mpr ⟨h1, hne⟩)

theorem alookup_aremove_ne {k k' : κ} (h : k' ≠ k) (l : List (κ × α)) :
    alookup k' (aremove k l) = alookup k' l := by
  induction l with
  | nil => rfl
  | cons p t ih =>
    obtain ⟨k'', v''⟩ := p
    by_cases hk : k'' = k
    · subst hk
      simp [aremove, alookup, Ne.symm h]
    · simp only [aremove, if_neg hk, alookup_cons]
      rw [ih]

end AssocLemmas

theorem mem_setAdd_iff {l : List String} {x a : String} :
    a ∈ setAdd l x ↔ a ∈ l ∨ a = x := by
  unfold setAdd
  by_cases h : x ∈ l
  · simp only [if_pos h]
    constructor
    · exact Or.inl
    · rintro (ha | rfl)
      · exact ha
      · exact h
  · simp [if_neg h]

theorem nodup_setAdd {l : List String} {x : String} (nd : l.Nodup) :
    (setAdd l x).Nodup := by
  unfold setAdd
  by_cases h : x ∈ l
  · simpa [h] using nd
  · simpa [h] using List.Nodup.append nd (by simp) (by simpa using h)

theorem setAdd_of_not_mem {l : List String} {x : String} (h : x ∉ l) :
    setAdd l x = l ++ [x] := by
  simp [setAdd, h]

/-! ## Lemmas about directive delivery -/

theorem applyOne_nonmut {l : List (Nat × Session)} {cid : Nat} {d : CserverCmd}
    (h : ∀ s, applyDirective s d = some s) : applyOne l cid d = l := by
  induction l with
  | nil => rfl
  | cons p t ih =>
    obtain ⟨c, ss⟩ := p
    by_cases hc : c = cid
    · simp [applyOne, hc, h ss]
    · simp [applyOne, hc, ih]

theorem alookup_applyOne_ne {l : List (Nat × Session)} {cid c : Nat} {d : CserverCmd}
    (h : c ≠ cid) : alookup c (applyOne l cid d) = alookup c l := by
  induction l with
  | nil => rfl
  | cons p t ih =>
    obtain ⟨c', ss⟩ := p
    by_cases hc : c' = cid
    · subst hc
      rcases hd : applyDirective ss d with _ | ss'
      · simp [applyOne, hd, alookup, Ne.symm h]
      · simp [applyOne, hd, alookup, Ne.symm h]
    · simp only [applyOne, if_neg hc, alookup_cons]
      rw [ih]

theorem alookup_applyOne_self {l : List (Nat × Session)} {cid : Nat} {d : CserverCmd}
    {s : Session} (nd : (l.map Prod.fst).Nodup) (h : alookup cid l = some s) :
    alookup cid (applyOne l cid d) = applyDirective s d := by
  induction l with
  | nil => simp at h
  | cons p t ih =>
    obtain ⟨c', ss⟩ := p
    rw [List.map_cons, List.nodup_cons] at nd
    by_cases hc : c' = cid
    · subst hc
      rw [alookup_cons, if_pos rfl] at h
      have hss : ss = s := by injection h
      rcases hd : applyDirective ss d with _ | ss'
      · rw [← hss, hd, show applyOne ((c', ss) :: t) c' d = t from by simp [applyOne, hd]]
        exact alookup_eq_none_iff.mpr nd.1
      · rw [← hss, hd, show applyOne ((c', ss) :: t) c' d = (c', ss') :: t from by
          simp [applyOne, hd]]
        simp
    · rw [alookup_cons, if_neg hc] at h
      rw [show applyOne ((c', ss) :: t) cid d = (c', ss) :: applyOne t cid d from by
        simp [applyOne, hc]]
      rw [alookup_cons, if_neg hc]
      exact ih nd.2 h

theorem alookup_applyOne_self' {l : List (Nat × Session)} {cid : Nat} {d : CserverCmd}
    {s s' : Session} (h : alookup cid l = some s) (hd : applyDirective s d = some s') :
    alookup cid (applyOne l cid d) = some s' := by
  induction l with
  | nil => simp at h
  | cons p t ih =>
    obtain ⟨c', ss⟩ := p
    by_cases hc : c' = cid
    · subst hc
      rw [alookup_cons, if_pos rfl] at h
      have hss : ss = s := by injection h
      rw [show applyOne ((c', ss) :: t) c' d = (c', s') :: t from by
        simp [applyOne, hss, hd]]
      simp
    · rw [alookup_cons, if_neg hc] at h
      rw [show applyOne ((c', ss) :: t) cid d = (c', ss) :: applyOne t cid d from by
        simp [applyOne, hc], alookup_cons, if_neg hc]
      exact ih h

theorem keys_applyOne_sublist (l : List (Nat × Session)) (cid : Nat) (d : CserverCmd) :
    ((applyOne l cid d).map Prod.fst).Sublist (l.map Prod.fst) := by
  induction l with
  | nil => simp [applyOne]
  | cons p t ih =>
    obtain ⟨c', ss⟩ := p
    by_cases hc : c' = cid
    · subst hc
      rcases hd : applyDirective ss d with _ | ss'
      · rw [show applyOne ((c', ss) :: t) c' d = t from by simp [applyOne, hd],
          List.map_cons]
        exact List.sublist_cons_self _ _
      · rw [show applyOne ((c', ss) :: t) c' d = (c', ss') :: t from by
          simp [applyOne, hd], List.map_cons, List.map_cons]
    · rw [show applyOne ((c', ss) :: t) cid d = (c', ss) :: applyOne t cid d from by
        simp [applyOne, hc], List.map_cons, List.map_cons]
      exact List.Sublist.cons₂ _ ih

theorem mem_applyOne_iff {l : List (Nat × Session)} {cid c : Nat} {d : CserverCmd}
    {s' : Session} (nd : (l.map Prod.fst).Nodup) :
    (c, s') ∈ applyOne l cid d ↔
      (c ≠ cid ∧ (c, s') ∈ l) ∨
      (c = cid ∧ ∃ s, (cid, s) ∈ l ∧ applyDirective s d = some s') := by
  induction l with
  | nil => simp [applyOne]
  | cons p t ih =>
    obtain ⟨c', ss⟩ := p
    rw [List.map_cons, List.nodup_cons] at nd
    have hnotin : ∀ w : Session, (c', w) ∉ t :=
      fun w hw => nd.1 (List.mem_map.mpr ⟨(c', w), hw, rfl⟩)
    by_cases hc : c' = cid
    · subst hc
      rcases hd : applyDirective ss d with _ | ss'
      · rw [show applyOne ((c', ss) :: t) c' d = t from by simp [applyOne, hd]]
        constructor
        · intro hmem
          have hcne : c ≠ c' := fun hcc => hnotin s' (hcc ▸ hmem)
          exact Or.inl ⟨hcne, List.mem_cons_of_mem _ hmem⟩
        · rintro (⟨hne, hm⟩ | ⟨rfl, s, hs, happ⟩)
          · rcases List.mem_cons.mp hm with h1 | h1
            · exact absurd (congrArg Prod.fst h1) hne
            · exact h1
          · rcases List.mem_cons.mp hs with h1 | h1
            · have : ss = s := congrArg Prod.snd h1.symm
              rw [this] at hd
              rw [hd] at happ
              exact absurd happ (by simp)
            · exact absurd h1 (hnotin s)
      · rw [show applyOne ((c', ss) :: t) c' d = (c', ss') :: t from by
          simp [applyOne, hd]]
        constructor
        · intro hm
          rcases List.mem_cons.mp hm with h1 | h1
          · have h1a : c = c' := congrArg Prod.fst h1
            have h1b : s' = ss' := congrArg Prod.snd h1
            exact Or.inr ⟨h1a, ss, List.mem_cons_self _ _, h1b ▸ hd⟩
          · have hcne : c ≠ c' := fun hcc => hnotin s' (hcc ▸ h1)
            exact Or.inl ⟨hcne, List.mem_cons_of_mem _ h1⟩
        · rintro (⟨hne, hm⟩ | ⟨rfl, s, hs, happ⟩)
          · rcases List.mem_cons.mp hm with h1 | h1
            · exact absurd (congrArg Prod.fst h1) hne
            · exact List.mem_cons_of_mem _ h1
          · rcases List.mem_cons.mp hs with h1 | h1
            · have : ss = s := congrArg Prod.snd h1.symm
              rw [this] at hd
              rw [hd] at happ
              have : ss' = s' := by injection happ
              exact List.mem_cons.mpr (Or.inl (by rw [this]))
            · exact absurd h1 (hnotin s)
    · rw [show applyOne ((c', ss) :: t) cid d = (c', ss) :: applyOne t cid d from by
        simp [applyOne, hc]]
      constructor
      · intro hm
        rcases List.mem_cons.mp hm with h1 | h1
        · have h1a : c = c' := congrArg Prod.fst h1
          exact Or.inl ⟨fun he => hc (h1a.symm.trans he), List.mem_cons.mpr (Or.inl h1)⟩
        · rcases (ih nd.2).mp h1 with ⟨h2, h3⟩ | ⟨h2, s, h3, h4⟩
          · exact Or.inl ⟨h2, List.mem_cons_of_mem _ h3⟩
          · exact Or.inr ⟨h2, s, List.mem_cons_of_mem _ h3, h4⟩
      · rintro (⟨hne, hm⟩ | ⟨rfl, s, hs, happ⟩)
        · rcases List.mem_cons.mp hm with h1 | h1
          · exact List.mem_cons.mpr (Or.inl h1)
          · exact List.mem_cons_of_mem _ ((ih nd.2).mpr (Or.inl ⟨hne, h1⟩))
        · rcases List.mem_cons.mp hs with h1 | h1
          · exact absurd (congrArg Prod.fst h1).symm hc
          · exact List.mem_cons_of_mem _ ((ih nd.2).mpr (Or.inr ⟨rfl, s, h1, happ⟩))

@[simp] theorem applyDirectives_nil (l : List (Nat × Session)) :
    applyDirectives l [] = l := rfl

theorem applyDirectives_cons (l : List (Nat × Session)) (d : Nat × CserverCmd)
    (ds : List (Nat × CserverCmd)) :
    applyDirectives l (d :: ds) = applyDirectives (applyOne l d.1 d.2) ds := rfl

theorem applyDirectives_append (l : List (Nat × Session)) (ds1 ds2 : List (Nat × CserverCmd)) :
    applyDirectives l (ds1 ++ ds2) = applyDirectives (applyDirectives l ds1) ds2 := by
  induction ds1 generalizing l with
  | nil => simp
  | cons d r ih => simp [applyDirectives_cons, ih]

theorem applyDirectives_nonmut {l : List (Nat × Session)} {ds : List (Nat × CserverCmd)}
    (h : ∀ p ∈ ds, ∀ s, applyDirective s p.2 = some s) : applyDirectives l ds = l := by
  induction ds with
  | nil => rfl
  | cons d r ih =>
    rw [applyDirectives_cons, applyOne_nonmut (h d (List.mem_cons_self _ _))]
    exact ih (fun p hp => h p (List.mem_cons_of_mem _ hp))

/-! ## The dispatcher state invariant -/

/-- Per-session consistency: a `NEW` session has no username; a
logged-in session's username is registered to it; a session that is not
`IN_ROOM` has no room and no targets; an `IN_ROOM` session's username
is an occupant of its room. -/
def sessionOk (st : ServerState) (cid : Nat) (s : Session) : Prop :=
  (s.state = .NEW → s.username = none) ∧
  (s.state ≠ .NEW → s.username ≠ none) ∧
  (∀ u ∈ s.username.toList, (u, cid) ∈ st.user_clients) ∧
  (s.state ≠ .IN_ROOM → s.roomname = none ∧ s.targets = none) ∧
  (s.state = .IN_ROOM → ∃ r ∈ s.roomname.toList, ∃ u ∈ s.username.toList,
    ∃ p ∈ st.room_users, p.1 = r ∧ u ∈ p.2)

/-- The invariant of the dispatcher's shared state: client identities,
usernames and room names are keyed uniquely; occupancy sets are
duplicate-free; every registry entry points at a live logged-in session
holding that username; every session is `sessionOk`; and every occupant
of a room is a registered user whose session is `IN_ROOM` in exactly
that room. -/
def SInv (st : ServerState) : Prop :=
  (st.sessions.map Prod.fst).Nodup ∧
  (st.user_clients.map Prod.fst).Nodup ∧
  (st.room_users.map Prod.fst).Nodup ∧
  (∀ p ∈ st.room_users, p.2.Nodup) ∧
  (∀ p ∈ st.user_clients, ∃ q ∈ st.sessions,
    q.1 = p.2 ∧ q.2.username = some p.1 ∧ q.2.state ≠ CserverClientState.NEW) ∧
  (∀ q ∈ st.sessions, sessionOk st q.1 q.2) ∧
  (∀ p ∈ st.room_users, ∀ u ∈ p.2, ∃ q ∈ st.sessions,
    q.2.username = some u ∧ q.2.state = CserverClientState.IN_ROOM ∧
      q.2.roomname = some p.1)

theorem mem_keys_nodup_eq {κ α : Type} [DecidableEq κ] {l : List (κ × α)}
    (nd : (l.map Prod.fst).Nodup) {k : κ} {v1 v2 : α}
    (h1 : (k, v1) ∈ l) (h2 : (k, v2) ∈ l) : v1 = v2 := by
  have e1 := alookup_of_mem_nodup nd h1
  have e2 := alookup_of_mem_nodup nd h2
  rw [e1] at e2
  injection e2

/-- Two live sessions holding the same username are the same session. -/
theorem sinv_username_inj {st : ServerState} (hinv : SInv st)
    {c1 c2 : Nat} {s1 s2 : Session} {u : String}
    (h1 : (c1, s1) ∈ st.sessions) (h2 : (c2, s2) ∈ st.sessions)
    (hu1 : s1.username = some u) (hu2 : s2.username = some u) :
    c1 = c2 ∧ s1 = s2 := by
  obtain ⟨hndS, hndU, _, _, _, hok, _⟩ := hinv
  have r1 : (u, c1) ∈ st.user_clients := by
    have := (hok _ h1).2.2.1 u (by simp [hu1])
    simpa using this
  have r2 : (u, c2) ∈ st.user_clients := by
    have := (hok _ h2).2.2.1 u (by simp [hu2])
    simpa using this
  have hc : c1 = c2 := mem_keys_nodup_eq hndU r1 r2
  subst hc
  exact ⟨rfl, mem_keys_nodup_eq hndS h1 h2⟩

/-- A username whose session is not `IN_ROOM` occupies no room. -/
theorem sinv_not_in_any_room {st : ServerState} (hinv : SInv st)
    {cid : Nat} {s : Session} {u : String}
    (hmem : (cid, s) ∈ st.sessions) (hu : s.username = some u)
    (hs : s.state ≠ CserverClientState.IN_ROOM) :
    ∀ p ∈ st.room_users, u ∉ p.2 := by
  intro p hp hu2
  obtain ⟨q, hq, hq1, hq2, _⟩ := hinv.2.2.2.2.2.2 p hp u hu2
  obtain ⟨_, hss⟩ := sinv_username_inj hinv hmem hq hu hq1
  rw [hss] at hs
  exact hs hq2

/-! ## Invariant preservation, one lemma per state-mutating branch -/

theorem sinv_newClient {st : ServerState} {cid : Nat}
    (hinv : SInv st) (hfresh : alookup cid st.sessions = none) :
    SInv { st with sessions := st.sessions ++ [(cid, newSession)] } := by
  obtain ⟨hndS, hndU, hndR, hocc, hreg, hok, hroom⟩ := hinv
  have hknot : cid ∉ st.sessions.map Prod.fst := alookup_eq_none_iff.mp hfresh
  refine ⟨?_, hndU, hndR, hocc, ?_, ?_, ?_⟩
  · rw [List.map_append]
    exact List.Nodup.append hndS (by simp) (by simpa using hknot)
  · intro p hp
    obtain ⟨q, hq, h1, h2, h3⟩ := hreg p hp
    exact ⟨q, List.mem_append_left _ hq, h1, h2, h3⟩
  · intro q hq
    rcases List.mem_append.mp hq with hq | hq
    · exact hok q hq
    · have hq2 : q = (cid, newSession) := List.mem_singleton.mp hq
      subst hq2
      refine ⟨fun _ => rfl, fun hne => absurd rfl hne, ?_, fun _ => ⟨rfl, rfl⟩, ?_⟩
      · intro u hu
        simp [newSession] at hu
      · intro hh
        simp [newSession] at hh
  · intro p hp u hu
    obtain ⟨q, hq, h1, h2, h3⟩ := hroom p hp u hu
    exact ⟨q, List.mem_append_left _ hq, h1, h2, h3⟩

theorem sinv_login {st : ServerState} {cid : Nat} {client : Session} {name : String}
    (hinv : SInv st)
    (hcl : alookup cid st.sessions = some client)
    (hnew : client.state = CserverClientState.NEW)
    (hfresh : alookup name st.user_clients = none) :
    SInv { st with
           user_clients := aset name cid st.user_clients,
           sessions := applyOne st.sessions cid (.WELCOME_USER name) } := by
  obtain ⟨hndS, hndU, hndR, hocc, hreg, hok, hroom⟩ := hinv
  have hclm : (cid, client) ∈ st.sessions := mem_of_alookup hcl
  have hunone : client.username = none := (hok _ hclm).1 hnew
  have hrnone : client.roomname = none ∧ client.targets = none :=
    (hok _ hclm).2.2.2.1 (by simp [hnew])
  have hfreshk : name ∉ st.user_clients.map Prod.fst := alookup_eq_none_iff.mp hfresh
  have haset : aset name cid st.user_clients = st.user_clients ++ [(name, cid)] :=
    aset_of_not_mem hfreshk
  have happly : applyDirective client (.WELCOME_USER name)
      = some { client with state := .LOGGED_IN, username := some name } := rfl
  have hsmem : ∀ {c : Nat} {s' : Session},
      (c, s') ∈ applyOne st.sessions cid (.WELCOME_USER name) ↔
      (c ≠ cid ∧ (c, s') ∈ st.sessions) ∨
      (c = cid ∧ s' = { client with state := .LOGGED_IN, username := some name }) := by
    intro c s'
    rw [mem_applyOne_iff hndS]
    constructor
    · rintro (h | ⟨rfl, s, hs, happ⟩)
      · exact Or.inl h
      · have hsc : s = client := mem_keys_nodup_eq hndS hs hclm
        subst hsc
        rw [happly] at happ
        exact Or.inr ⟨rfl, (Option.some.inj happ).symm⟩
    · rintro (h | ⟨rfl, rfl⟩)
      · exact Or.inl h
      · exact Or.inr ⟨rfl, client, hclm, happly⟩
  refine ⟨?_, ?_, hndR, hocc, ?_, ?_, ?_⟩
  · exact List.Nodup.sublist (keys_applyOne_sublist _ _ _) hndS
  · rw [haset, List.map_append]
    exact List.Nodup.append hndU (by simp) (by simpa using hfreshk)
  · intro p hp
    have hp' : p ∈ aset name cid st.user_clients := hp
    rw [haset] at hp'
    rcases List.mem_append.mp hp' with hp | hp
    · obtain ⟨⟨qc, qs⟩, hq, h1, h2, h3⟩ := hreg p hp
      by_cases he : qc = cid
      · subst he
        have hqs : qs = client := mem_keys_nodup_eq hndS hq hclm
        rw [hqs, hunone] at h2
        exact absurd h2 (by simp)
      · exact ⟨(qc, qs), hsmem.mpr (Or.inl ⟨he, hq⟩), h1, h2, h3⟩
    · have hp2 : p = (name, cid) := List.mem_singleton.mp hp
      subst hp2
      exact ⟨(cid, { client with state := .LOGGED_IN, username := some name }),
        hsmem.mpr (Or.inr ⟨rfl, rfl⟩), rfl, rfl, by simp⟩
  · intro q hq
    obtain ⟨qc, qs⟩ := q
    rcases hsmem.mp hq with ⟨hne, hold⟩ | ⟨hcc, hss⟩
    · obtain ⟨o1, o2, o3, o4, o5⟩ := hok _ hold
      refine ⟨o1, o2, ?_, o4, o5⟩
      intro u hu
      show (u, qc) ∈ aset name cid st.user_clients
      rw [haset]
      exact List.mem_append_left _ (o3 u hu)
    · refine ⟨?_, ?_, ?_, ?_, ?_⟩
      · intro hh; rw [hss] at hh; simp at hh
      · intro _; rw [hss]; simp
      · intro u hu
        rw [hss] at hu
        simp only [Option.toList_some, List.mem_singleton] at hu
        rw [hu, hcc]
        show (name, cid) ∈ aset name cid st.user_clients
        rw [haset]
        exact List.mem_append_right _ (by simp)
      · intro _
        rw [hss]
        exact ⟨hrnone.1, hrnone.2⟩
      · intro hh; rw [hss] at hh; simp at hh
  · intro p hp u hu
    obtain ⟨⟨qc, qs⟩, hq, h1, h2, h3⟩ := hroom p hp u hu
    have hne : qc ≠ cid := by
      intro he
      subst he
      have hqs : qs = client := mem_keys_nodup_eq hndS hq hclm
      rw [hqs, hunone] at h1
      exact absurd h1 (by simp)
    exact ⟨(qc, qs), hsmem.mpr (Or.inl ⟨hne, hq⟩), h1, h2, h3⟩

theorem sinv_create {st : ServerState} {room : String}
    (hinv : SInv st) (hfresh : alookup room st.room_users = none) :
    SInv { st with db_rooms := setAdd st.db_rooms room,
                   room_users := aset room [] st.room_users } := by
  obtain ⟨hndS, hndU, hndR, hocc, hreg, hok, hroom⟩ := hinv
  have hfreshk : room ∉ st.room_users.map Prod.fst := alookup_eq_none_iff.mp hfresh
  have haset : aset room ([] : List String) st.room_users = st.room_users ++ [(room, [])] :=
    aset_of_not_mem hfreshk
  refine ⟨hndS, hndU, ?_, ?_, hreg, ?_, ?_⟩
  · rw [haset, List.map_append]
    exact List.Nodup.append hndR (by simp) (by simpa using hfreshk)
  · intro p hp
    have hp' : p ∈ aset room [] st.room_users := hp
    rw [haset] at hp'
    rcases List.mem_append.mp hp' with h | h
    · exact hocc p h
    · have hpe : p = (room, []) := List.mem_singleton.mp h
      rw [hpe]
      simp
  · intro q hq
    obtain ⟨o1, o2, o3, o4, o5⟩ := hok q hq
    refine ⟨o1, o2, o3, o4, ?_⟩
    intro hin
    obtain ⟨r, hr, u, hu, p, hpm, hp1, hp2⟩ := o5 hin
    refine ⟨r, hr, u, hu, p, ?_, hp1, hp2⟩
    show p ∈ aset room [] st.room_users
    rw [haset]
    exact List.mem_append_left _ hpm
  · intro p hp u hu
    have hp' : p ∈ aset room [] st.room_users := hp
    rw [haset] at hp'
    rcases List.mem_append.mp hp' with h | h
    · exact hroom p h u hu
    · have hpe : p = (room, []) := List.mem_singleton.mp h
      rw [hpe] at hu
      simp at hu

theorem sinv_leave {st : ServerState} {cid : Nat} {client : Session} {rn u : String}
    {us : List String} (a b : Option String)
    (hinv : SInv st)
    (hcl : alookup cid st.sessions = some client)
    (hin : client.state = CserverClientState.IN_ROOM)
    (hrn : client.roomname = some rn)
    (hu : client.username = some u)
    (hus : alookup rn st.room_users = some us) :
    SInv { st with
           room_users := aset rn (us.erase u) st.room_users,
           sessions := applyOne st.sessions cid (.LEAVE_ROOM a b) } := by
  have hinv' := hinv
  obtain ⟨hndS, hndU, hndR, hocc, hreg, hok, hroom⟩ := hinv
  have hclm : (cid, client) ∈ st.sessions := mem_of_alookup hcl
  have husm : (rn, us) ∈ st.room_users := mem_of_alookup hus
  have husnd : us.Nodup := hocc _ husm
  have hrk : rn ∈ st.room_users.map Prod.fst := alookup_mem_keys hus
  have happly : applyDirective client (.LEAVE_ROOM a b)
      = some { client with state := .LOGGED_IN, roomname := none, targets := none } := rfl
  have hsmem : ∀ {c : Nat} {s' : Session},
      (c, s') ∈ applyOne st.sessions cid (.LEAVE_ROOM a b) ↔
      (c ≠ cid ∧ (c, s') ∈ st.sessions) ∨
      (c = cid ∧ s' = { client with state := .LOGGED_IN, roomname := none, targets := none }) := by
    intro c s'
    rw [mem_applyOne_iff hndS]
    constructor
    · rintro (h | ⟨hcc, s, hs, happ⟩)
      · exact Or.inl h
      · have hsc : s = client := mem_keys_nodup_eq hndS hs hclm
        subst hsc
        rw [happly] at happ
        exact Or.inr ⟨hcc, (Option.some.inj happ).symm⟩
    · rintro (h | ⟨hcc, hss⟩)
      · exact Or.inl h
      · subst hcc
        exact Or.inr ⟨rfl, client, hclm, hss ▸ happly⟩
  have hmemset : ∀ {p : String × List String},
      p ∈ aset rn (us.erase u) st.room_users ↔
      (p.1 = rn ∧ p.2 = us.erase u) ∨ (p.1 ≠ rn ∧ p ∈ st.room_users) := by
    intro p
    obtain ⟨p1, p2⟩ := p
    exact mem_aset_iff hndR
  refine ⟨?_, hndU, ?_, ?_, ?_, ?_, ?_⟩
  · exact List.Nodup.sublist (keys_applyOne_sublist _ _ _) hndS
  · rw [keys_aset_of_mem hrk]
    exact hndR
  · intro p hp
    rcases hmemset.mp hp with ⟨_, h2⟩ | ⟨_, h⟩
    · rw [h2]
      exact husnd.erase u
    · exact hocc p h
  · intro p hp
    obtain ⟨⟨qc, qs⟩, hq, h1, h2, h3⟩ := hreg p hp
    by_cases he : qc = cid
    · subst he
      have hqs : qs = client := mem_keys_nodup_eq hndS hq hclm
      refine ⟨(qc, { client with state := .LOGGED_IN, roomname := none, targets := none }),
        hsmem.mpr (Or.inr ⟨rfl, rfl⟩), h1, ?_, by simp⟩
      rw [← hqs]
      exact h2
    · exact ⟨(qc, qs), hsmem.mpr (Or.inl ⟨he, hq⟩), h1, h2, h3⟩
  · intro q hq
    obtain ⟨qc, qs⟩ := q
    rcases hsmem.mp hq with ⟨hne, hold⟩ | ⟨hcc, hss⟩
    · obtain ⟨o1, o2, o3, o4, o5⟩ := hok _ hold
      refine ⟨o1, o2, o3, o4, ?_⟩
      intro hqin
      obtain ⟨r, hr, w, hw, p, hpm, hp1, hp2⟩ := o5 hqin
      by_cases hreq : p.1 = rn
      · have hps : p.2 = us := by
          have := alookup_of_mem_nodup hndR (show (rn, p.2) ∈ st.room_users from by
            rw [← hreq]; exact hpm)
          rw [hus] at this
          exact (Option.some.inj this).symm
      -- w occupies rn; w ≠ u since w belongs to session (qc, qs) ≠ cid
        have hwname : qs.username = some w := by
          simp only [Option.mem_toList, Option.mem_def] at hw
          exact hw
        have hwne : w ≠ u := by
          intro hwu
          subst hwu
          have := sinv_username_inj hinv' hold hclm hwname hu
          exact hne this.1
        refine ⟨r, hr, w, hw, (rn, us.erase u), hmemset.mpr (Or.inl ⟨rfl, rfl⟩),
          hreq ▸ hp1, ?_⟩
        rw [List.mem_erase_of_ne hwne, ← hps]
        exact hp2
      · exact ⟨r, hr, w, hw, p, hmemset.mpr (Or.inr ⟨hreq, hpm⟩), hp1, hp2⟩
    · refine ⟨?_, ?_, ?_, ?_, ?_⟩
      · intro hh; rw [hss] at hh; simp at hh
      · intro _
        rw [hss]
        show client.username ≠ none
        rw [hu]
        simp
      · intro w hw
        rw [hss] at hw
        have o3 := (hok _ hclm).2.2.1
        rw [hcc]
        exact o3 w hw
      · intro _
        rw [hss]
        exact ⟨rfl, rfl⟩
      · intro hh
        rw [hss] at hh
        simp at hh
  · intro p hp w hw
    rcases hmemset.mp hp with ⟨hp1, hp2⟩ | ⟨hp1, hp2⟩
    · rw [hp2] at hw
      have hwus : w ∈ us := (husnd.mem_erase_iff.mp hw).2
      have hwne : w ≠ u := (husnd.mem_erase_iff.mp hw).1
      obtain ⟨⟨qc, qs⟩, hq, h1, h2, h3⟩ := hroom (rn, us) husm w hwus
      have hne : qc ≠ cid := by
        intro he
        subst he
        have hqs : qs = client := mem_keys_nodup_eq hndS hq hclm
        rw [hqs, hu] at h1
        exact hwne (Option.some.inj h1).symm
      exact ⟨(qc, qs), hsmem.mpr (Or.inl ⟨hne, hq⟩), h1, h2, by rw [h3, hp1]⟩
    · obtain ⟨⟨qc, qs⟩, hq, h1, h2, h3⟩ := hroom p hp2 w hw
      have hne : qc ≠ cid := by
        intro he
        subst he
        have hqs : qs = client := mem_keys_nodup_eq hndS hq hclm
        rw [hqs, hrn] at h3
        exact hp1 (Option.some.inj h3).symm
      exact ⟨(qc, qs), hsmem.mpr (Or.inl ⟨hne, hq⟩), h1, h2, h3⟩

theorem sinv_joinAdd {st : ServerState} {cid : Nat} {client : Session} {room u : String}
    {us : List String} (a : Option String)
    (hinv : SInv st)
    (hcl : alookup cid st.sessions = some client)
    (hst : client.state = CserverClientState.LOGGED_IN)
    (hu : client.username = some u)
    (hus : alookup room st.room_users = some us) :
    SInv { st with
           room_users := aset room (setAdd us u) st.room_users,
           sessions := applyOne st.sessions cid
             (.JOIN_ROOM a room (setAdd us u)) } := by
  have hinv' := hinv
  obtain ⟨hndS, hndU, hndR, hocc, hreg, hok, hroom⟩ := hinv
  have hclm : (cid, client) ∈ st.sessions := mem_of_alookup hcl
  have husm : (room, us) ∈ st.room_users := mem_of_alookup hus
  have husnd : us.Nodup := hocc _ husm
  have hrk : room ∈ st.room_users.map Prod.fst := alookup_mem_keys hus
  have hnin : client.state ≠ CserverClientState.IN_ROOM := by rw [hst]; simp
  have happly : applyDirective client (.JOIN_ROOM a room (setAdd us u))
      = some { client with state := .IN_ROOM, roomname := some room } := by
    rw [show applyDirective client (.JOIN_ROOM a room (setAdd us u)) =
      some (match client.username with
        | some w =>
          if w ∈ setAdd us u then { client with state := .IN_ROOM, roomname := some room }
          else client
        | none => client) from rfl, hu]
    simp [mem_setAdd_iff]
  have hsmem : ∀ {c : Nat} {s' : Session},
      (c, s') ∈ applyOne st.sessions cid (.JOIN_ROOM a room (setAdd us u)) ↔
      (c ≠ cid ∧ (c, s') ∈ st.sessions) ∨
      (c = cid ∧ s' = { client with state := .IN_ROOM, roomname := some room }) := by
    intro c s'
    rw [mem_applyOne_iff hndS]
    constructor
    · rintro (h | ⟨hcc, s, hs, happ⟩)
      · exact Or.inl h
      · have hsc : s = client := mem_keys_nodup_eq hndS hs hclm
        subst hsc
        rw [happly] at happ
        exact Or.inr ⟨hcc, (Option.some.inj happ).symm⟩
    · rintro (h | ⟨hcc, hss⟩)
      · exact Or.inl h
      · subst hcc
        exact Or.inr ⟨rfl, client, hclm, hss ▸ happly⟩
  have hmemset : ∀ {p : String × List String},
      p ∈ aset room (setAdd us u) st.room_users ↔
      (p.1 = room ∧ p.2 = setAdd us u) ∨ (p.1 ≠ room ∧ p ∈ st.room_users) := by
    intro p
    obtain ⟨p1, p2⟩ := p
    exact mem_aset_iff hndR
  refine ⟨?_, hndU, ?_, ?_, ?_, ?_, ?_⟩
  · exact List.Nodup.sublist (keys_applyOne_sublist _ _ _) hndS
  · rw [keys_aset_of_mem hrk]
    exact hndR
  · intro p hp
    rcases hmemset.mp hp with ⟨_, h2⟩ | ⟨_, h⟩
    · rw [h2]
      exact nodup_setAdd husnd
    · exact hocc p h
  · intro p hp
    obtain ⟨⟨qc, qs⟩, hq, h1, h2, h3⟩ := hreg p hp
    by_cases he : qc = cid
    · subst he
      have hqs : qs = client := mem_keys_nodup_eq hndS hq hclm
      refine ⟨(qc, { client with state := .IN_ROOM, roomname := some room }),
        hsmem.mpr (Or.inr ⟨rfl, rfl⟩), h1, ?_, by simp⟩
      rw [← hqs]
      exact h2
    · exact ⟨(qc, qs), hsmem.mpr (Or.inl ⟨he, hq⟩), h1, h2, h3⟩
  · intro q hq
    obtain ⟨qc, qs⟩ := q
    rcases hsmem.mp hq with ⟨hne, hold⟩ | ⟨hcc, hss⟩
    · obtain ⟨o1, o2, o3, o4, o5⟩ := hok _ hold
      refine ⟨o1, o2, o3, o4, ?_⟩
      intro hqin
      obtain ⟨r, hr, w, hw, p, hpm, hp1, hp2⟩ := o5 hqin
      by_cases hreq : p.1 = room
      · have hps : p.2 = us := by
          have := alookup_of_mem_nodup hndR (show (room, p.2) ∈ st.room_users from by
            rw [← hreq]; exact hpm)
          rw [hus] at this
          exact (Option.some.inj this).symm
        refine ⟨r, hr, w, hw, (room, setAdd us u),
          hmemset.mpr (Or.inl ⟨rfl, rfl⟩), hreq ▸ hp1, ?_⟩
        rw [mem_setAdd_iff]
        exact Or.inl (hps ▸ hp2)
      · exact ⟨r, hr, w, hw, p, hmemset.mpr (Or.inr ⟨hreq, hpm⟩), hp1, hp2⟩
    · refine ⟨?_, ?_, ?_, ?_, ?_⟩
      · intro hh; rw [hss] at hh; simp at hh
      · intro _
        rw [hss]
        show client.username ≠ none
        rw [hu]
        simp
      · intro w hw
        rw [hss] at hw
        have o3 := (hok _ hclm).2.2.1
        rw [hcc]
        exact o3 w hw
      · intro hh
        rw [hss] at hh
        simp at hh
      · intro _
        refine ⟨room, by rw [hss]; simp, u, by rw [hss, hu]; simp,
          (room, setAdd us u), hmemset.mpr (Or.inl ⟨rfl, rfl⟩), rfl, ?_⟩
        rw [mem_setAdd_iff]
        exact Or.inr rfl
  · intro p hp w hw
    rcases hmemset.mp hp with ⟨hp1, hp2⟩ | ⟨hp1, hp2⟩
    · rw [hp2, mem_setAdd_iff] at hw
      rcases hw with hw | hw
      · obtain ⟨⟨qc, qs⟩, hq, h1, h2, h3⟩ := hroom (room, us) husm w hw
        have hne : qc ≠ cid := by
          intro he
          subst he
          have hqs : qs = client := mem_keys_nodup_eq hndS hq hclm
          rw [hqs, hst] at h2
          simp at h2
        exact ⟨(qc, qs), hsmem.mpr (Or.inl ⟨hne, hq⟩), h1, h2, by rw [h3, hp1]⟩
      · subst hw
        refine ⟨(cid, { client with state := .IN_ROOM, roomname := some room }),
          hsmem.mpr (Or.inr ⟨rfl, rfl⟩), ?_, rfl, ?_⟩
        · show client.username = some w
          exact hu
        · show some room = some p.1
          rw [hp1]
    · obtain ⟨⟨qc, qs⟩, hq, h1, h2, h3⟩ := hroom p hp2 w hw
      have hne : qc ≠ cid := by
        intro he
        subst he
        have hqs : qs = client := mem_keys_nodup_eq hndS hq hclm
        rw [hqs, hst] at h2
        simp at h2
      exact ⟨(qc, qs), hsmem.mpr (Or.inl ⟨hne, hq⟩), h1, h2, h3⟩

theorem sinv_quitFinish {st : ServerState} {cid : Nat} {client : Session} {u : String}
    (hinv : SInv st)
    (hcl : alookup cid st.sessions = some client)
    (hns : client.state ≠ CserverClientState.IN_ROOM)
    (hu : client.username = some u) :
    SInv { st with
           user_clients := aremove u st.user_clients,
           sessions := applyOne st.sessions cid CserverCmd.QUIT } := by
  have hinv' := hinv
  obtain ⟨hndS, hndU, hndR, hocc, hreg, hok, hroom⟩ := hinv
  have hclm : (cid, client) ∈ st.sessions := mem_of_alookup hcl
  have hsmem : ∀ {c : Nat} {s' : Session},
      (c, s') ∈ applyOne st.sessions cid CserverCmd.QUIT ↔
      (c ≠ cid ∧ (c, s') ∈ st.sessions) := by
    intro c s'
    rw [mem_applyOne_iff hndS]
    constructor
    · rintro (h | ⟨_, s, _, happ⟩)
      · exact h
      · rw [show applyDirective s CserverCmd.QUIT = none from rfl] at happ
        exact absurd happ (by simp)
    · exact Or.inl
  refine ⟨?_, ?_, hndR, hocc, ?_, ?_, ?_⟩
  · exact List.Nodup.sublist (keys_applyOne_sublist _ _ _) hndS
  · exact List.Nodup.sublist (List.Sublist.map Prod.fst (aremove_sublist u _)) hndU
  · intro p hp
    have hp' : (p.1, p.2) ∈ aremove u st.user_clients := by simpa using hp
    have hp2 := (mem_aremove_iff hndU).mp hp'
    obtain ⟨⟨qc, qs⟩, hq, h1, h2, h3⟩ := hreg p hp2.1
    have hne : qc ≠ cid := by
      intro he
      subst he
      have hqs : qs = client := mem_keys_nodup_eq hndS hq hclm
      rw [hqs, hu] at h2
      exact hp2.2 (Option.some.inj h2).symm
    exact ⟨(qc, qs), hsmem.mpr ⟨hne, hq⟩, h1, h2, h3⟩
  · intro q hq
    obtain ⟨qc, qs⟩ := q
    obtain ⟨hne, hold⟩ := hsmem.mp hq
    obtain ⟨o1, o2, o3, o4, o5⟩ := hok _ hold
    refine ⟨o1, o2, ?_, o4, o5⟩
    intro w hw
    have hwname : qs.username = some w := by
      simp only [Option.mem_toList, Option.mem_def] at hw
      exact hw
    have hwu : w ≠ u := by
      intro he
      subst he
      have := sinv_username_inj hinv' hold hclm hwname hu
      exact hne this.1
    show (w, qc) ∈ aremove u st.user_clients
    exact (mem_aremove_iff hndU).mpr ⟨o3 w hw, hwu⟩
  · intro p hp w hw
    obtain ⟨⟨qc, qs⟩, hq, h1, h2, h3⟩ := hroom p hp w hw
    have hne : qc ≠ cid := by
      intro he
      subst he
      have hqs : qs = client := mem_keys_nodup_eq hndS hq hclm
      rw [hqs] at h2
      exact hns h2
    exact ⟨(qc, qs), hsmem.mpr ⟨hne, hq⟩, h1, h2, h3⟩

theorem sinv_private {st : ServerState} {cid : Nat} {client : Session}
    {ts : List String}
    (hinv : SInv st)
    (hcl : alookup cid st.sessions = some client)
    (hst : client.state = CserverClientState.IN_ROOM) :
    SInv { st with sessions := applyOne st.sessions cid (.PRIVATE ts) } := by
  obtain ⟨hndS, hndU, hndR, hocc, hreg, hok, hroom⟩ := hinv
  have hclm : (cid, client) ∈ st.sessions := mem_of_alookup hcl
  have happly : applyDirective client (.PRIVATE ts)
      = some { client with targets := some ts } := rfl
  have hsmem : ∀ {c : Nat} {s' : Session},
      (c, s') ∈ applyOne st.sessions cid (.PRIVATE ts) ↔
      (c ≠ cid ∧ (c, s') ∈ st.sessions) ∨
      (c = cid ∧ s' = { client with targets := some ts }) := by
    intro c s'
    rw [mem_applyOne_iff hndS]
    constructor
    · rintro (h | ⟨hcc, s, hs, happ⟩)
      · exact Or.inl h
      · have hsc : s = client := mem_keys_nodup_eq hndS hs hclm
        subst hsc
        rw [happly] at happ
        exact Or.inr ⟨hcc, (Option.some.inj happ).symm⟩
    · rintro (h | ⟨hcc, hss⟩)
      · exact Or.inl h
      · subst hcc
        exact Or.inr ⟨rfl, client, hclm, hss ▸ happly⟩
  refine ⟨?_, hndU, hndR, hocc, ?_, ?_, ?_⟩
  · exact List.Nodup.sublist (keys_applyOne_sublist _ _ _) hndS
  · intro p hp
    obtain ⟨⟨qc, qs⟩, hq, h1, h2, h3⟩ := hreg p hp
    by_cases he : qc = cid
    · subst he
      have hqs : qs = client := mem_keys_nodup_eq hndS hq hclm
      refine ⟨(qc, { client with targets := some ts }),
        hsmem.mpr (Or.inr ⟨rfl, rfl⟩), h1, ?_, ?_⟩
      · rw [← hqs]; exact h2
      · show client.state ≠ CserverClientState.NEW
        rw [hst]; simp
    · exact ⟨(qc, qs), hsmem.mpr (Or.inl ⟨he, hq⟩), h1, h2, h3⟩
  · intro q hq
    obtain ⟨qc, qs⟩ := q
    rcases hsmem.mp hq with ⟨hne, hold⟩ | ⟨hcc, hss⟩
    · exact hok _ hold
    · obtain ⟨o1, o2, o3, o4, o5⟩ := hok _ hclm
      refine ⟨?_, ?_, ?_, ?_, ?_⟩
      · intro hh
        rw [hss] at hh
        have hclash : client.state = CserverClientState.NEW := hh
        rw [hst] at hclash
        exact absurd hclash (by simp)
      · intro _
        rw [hss]
        show client.username ≠ none
        exact o2 (by rw [hst]; simp)
      · intro w hw
        rw [hss] at hw
        rw [hcc]
        exact o3 w hw
      · intro hh
        rw [hss] at hh
        exact absurd hst hh
      · intro _
        obtain ⟨r, hr, w, hw, p, hpm, hp1, hp2⟩ := o5 hst
        exact ⟨r, by rw [hss]; exact hr, w, by rw [hss]; exact hw, p, hpm, hp1, hp2⟩
  · intro p hp w hw
    obtain ⟨⟨qc, qs⟩, hq, h1, h2, h3⟩ := hroom p hp w hw
    by_cases he : qc = cid
    · subst he
      have hqs : qs = client := mem_keys_nodup_eq hndS hq hclm
      refine ⟨(qc, { client with targets := some ts }),
        hsmem.mpr (Or.inr ⟨rfl, rfl⟩), ?_, ?_, ?_⟩
      · show client.username = some w
        rw [← hqs]; exact h1
      · show client.state = CserverClientState.IN_ROOM
        exact hst
      · show client.roomname = some p.1
        rw [← hqs]; exact h3
    · exact ⟨(qc, qs), hsmem.mpr (Or.inl ⟨he, hq⟩), h1, h2, h3⟩

theorem sinv_public {st : ServerState} {cid : Nat} {client : Session}
    (hinv : SInv st)
    (hcl : alookup cid st.sessions = some client) :
    SInv { st with sessions := applyOne st.sessions cid .PUBLIC } := by
  obtain ⟨hndS, hndU, hndR, hocc, hreg, hok, hroom⟩ := hinv
  have hclm : (cid, client) ∈ st.sessions := mem_of_alookup hcl
  have happly : applyDirective client .PUBLIC
      = some { client with targets := none } := rfl
  have hsmem : ∀ {c : Nat} {s' : Session},
      (c, s') ∈ applyOne st.sessions cid .PUBLIC ↔
      (c ≠ cid ∧ (c, s') ∈ st.sessions) ∨
      (c = cid ∧ s' = { client with targets := none }) := by
    intro c s'
    rw [mem_applyOne_iff hndS]
    constructor
    · rintro (h | ⟨hcc, s, hs, happ⟩)
      · exact Or.inl h
      · have hsc : s = client := mem_keys_nodup_eq hndS hs hclm
        subst hsc
        rw [happly] at happ
        exact Or.inr ⟨hcc, (Option.some.inj happ).symm⟩
    · rintro (h | ⟨hcc, hss⟩)
      · exact Or.inl h
      · subst hcc
        exact Or.inr ⟨rfl, client, hclm, hss ▸ happly⟩
  obtain ⟨o1, o2, o3, o4, o5⟩ := hok _ hclm
  refine ⟨?_, hndU, hndR, hocc, ?_, ?_, ?_⟩
  · exact List.Nodup.sublist (keys_applyOne_sublist _ _ _) hndS
  · intro p hp
    obtain ⟨⟨qc, qs⟩, hq, h1, h2, h3⟩ := hreg p hp
    by_cases he : qc = cid
    · subst he
      have hqs : qs = client := mem_keys_nodup_eq hndS hq hclm
      refine ⟨(qc, { client with targets := none }),
        hsmem.mpr (Or.inr ⟨rfl, rfl⟩), h1, ?_, ?_⟩
      · rw [← hqs]; exact h2
      · show client.state ≠ CserverClientState.NEW
        rw [← hqs]; exact h3
    · exact ⟨(qc, qs), hsmem.mpr (Or.inl ⟨he, hq⟩), h1, h2, h3⟩
  · intro q hq
    obtain ⟨qc, qs⟩ := q
    rcases hsmem.mp hq with ⟨hne, hold⟩ | ⟨hcc, hss⟩
    · exact hok _ hold
    · refine ⟨?_, ?_, ?_, ?_, ?_⟩
      · intro hh
        rw [hss] at hh
        rw [hss]
        exact o1 hh
      · intro hh
        rw [hss] at hh ⊢
        exact o2 hh
      · intro w hw
        rw [hss] at hw
        rw [hcc]
        exact o3 w hw
      · intro hh
        rw [hss] at hh ⊢
        exact ⟨(o4 hh).1, rfl⟩
      · intro hh
        rw [hss] at hh ⊢
        obtain ⟨r, hr, w, hw, p, hpm, hp1, hp2⟩ := o5 hh
        exact ⟨r, hr, w, hw, p, hpm, hp1, hp2⟩
  · intro p hp w hw
    obtain ⟨⟨qc, qs⟩, hq, h1, h2, h3⟩ := hroom p hp w hw
    by_cases he : qc = cid
    · subst he
      have hqs : qs = client := mem_keys_nodup_eq hndS hq hclm
      refine ⟨(qc, { client with targets := none }),
        hsmem.mpr (Or.inr ⟨rfl, rfl⟩), ?_, ?_, ?_⟩
      · show client.username = some w
        rw [← hqs]; exact h1
      · show client.state = CserverClientState.IN_ROOM
        rw [← hqs]; exact h2
      · show client.roomname = some p.1
        rw [← hqs]; exact h3
    · exact ⟨(qc, qs), hsmem.mpr (Or.inl ⟨he, hq⟩), h1, h2, h3⟩

theorem applyDirectives_map_nonmut {l : List (Nat × Session)} {cs : List Nat}
    {f : Nat → Nat × CserverCmd} (hf : ∀ c s, applyDirective s (f c).2 = some s) :
    applyDirectives l (cs.map f) = l :=
  applyDirectives_nonmut (by
    intro p hp s
    obtain ⟨c, _, rfl⟩ := List.mem_map.mp hp
    exact hf c s)

theorem sessionOk_inRoom_data {st : ServerState} {cid : Nat} {client : Session}
    (hok : sessionOk st cid client) (hin : client.state = CserverClientState.IN_ROOM)
    (hndR : (st.room_users.map Prod.fst).Nodup) :
    ∃ rn u us, client.roomname = some rn ∧ client.username = some u ∧
      alookup rn st.room_users = some us ∧ u ∈ us := by
  obtain ⟨_, _, _, _, o5⟩ := hok
  obtain ⟨r, hr, u, hu, p, hpm, hp1, hp2⟩ := o5 hin
  obtain ⟨p1, p2⟩ := p
  refine ⟨r, u, p2, ?_, ?_, ?_, hp2⟩
  · simpa using hr
  · simpa using hu
  · refine alookup_of_mem_nodup hndR ?_
    have hp1' : p1 = r := hp1
    rw [← hp1']
    exact hpm

theorem sessionOk_username {st : ServerState} {cid : Nat} {client : Session}
    (hok : sessionOk st cid client)
    (hns : client.state ≠ CserverClientState.NEW) : ∃ u, client.username = some u := by
  have h2 := hok.2.1 hns
  rcases hcase : client.username with _ | u
  · exact absurd hcase h2
  · exact ⟨u, rfl⟩

theorem state_logged_in {s : Session}
    (h1 : s.state ≠ CserverClientState.NEW)
    (h2 : s.state ≠ CserverClientState.IN_ROOM) :
    s.state = CserverClientState.LOGGED_IN := by
  rcases h : s.state
  · exact absurd h h1
  · rfl
  · exact absurd h h2

theorem stepSync_preserves {st st' : ServerState} {e : Event}
    (hinv : SInv st) (h : stepSync st e = some st') : SInv st' := by
  rw [stepSync] at h
  rcases Option.map_eq_some'.mp h with ⟨⟨st1, ds⟩, hd, hst'⟩
  subst hst'
  cases e with
  | newClient cid =>
    rcases hcl : alookup cid st.sessions with _ | c
    · simp only [dispatch, hcl] at hd
      obtain ⟨h1, h2⟩ := Prod.mk.injEq .. |>.mp (Option.some.inj hd)
      subst h1
      subst h2
      rw [show applyDirectives (st.sessions ++ [(cid, newSession)])
        [(cid, CserverCmd.BANNER), (cid, CserverCmd.LOGIN)]
        = st.sessions ++ [(cid, newSession)] from by
          rw [applyDirectives_cons,
            @applyOne_nonmut _ cid CserverCmd.BANNER (fun s => rfl),
            applyDirectives_cons,
            @applyOne_nonmut _ cid CserverCmd.LOGIN (fun s => rfl)]
          rfl]
      exact sinv_newClient hinv hcl
    · simp only [dispatch, hcl] at hd
      exact absurd hd (by simp)
  | msg cid line =>
    rcases hcl : alookup cid st.sessions with _ | client
    · simp only [dispatch, hcl] at hd
      exact absurd hd (by simp)
    · have hclm := mem_of_alookup hcl
      have hokc : sessionOk st cid client := hinv.2.2.2.2.2.1 _ hclm
      by_cases hnew : client.state = CserverClientState.NEW
      · -- login attempt
        rcases htk : alookup line st.user_clients with _ | c2
        · by_cases hre : username_re_match line = false
          · simp only [dispatch, hcl, hnew, htk, if_pos, if_neg, Option.isSome_none,
              Bool.false_eq_true, if_false, if_true, hre] at hd
            obtain ⟨h1, h2⟩ := Prod.mk.injEq .. |>.mp (Option.some.inj hd)
            subst h1
            subst h2
            rw [show applyDirectives st.sessions
              [(cid, CserverCmd.INVALID_USERNAME), (cid, CserverCmd.LOGIN)]
              = st.sessions from by
                rw [applyDirectives_cons,
                  @applyOne_nonmut _ cid CserverCmd.INVALID_USERNAME (fun s => rfl),
                  applyDirectives_cons,
                  @applyOne_nonmut _ cid CserverCmd.LOGIN (fun s => rfl)]
                rfl]
            exact hinv
          · simp only [dispatch, hcl, hnew, htk, if_pos, if_neg, Option.isSome_none,
              Bool.false_eq_true, if_false, if_true, hre] at hd
            obtain ⟨h1, h2⟩ := Prod.mk.injEq .. |>.mp (Option.some.inj hd)
            subst h1
            subst h2
            exact sinv_login hinv hcl hnew htk
        · simp only [dispatch, hcl, hnew, htk, if_pos, Option.isSome_some, if_true] at hd
          obtain ⟨h1, h2⟩ := Prod.mk.injEq .. |>.mp (Option.some.inj hd)
          subst h1
          subst h2
          rw [show applyDirectives st.sessions
            [(cid, CserverCmd.EXISTING_USER), (cid, CserverCmd.LOGIN)] = st.sessions from by
              rw [applyDirectives_cons,
                @applyOne_nonmut _ cid CserverCmd.EXISTING_USER (fun s => rfl),
                applyDirectives_cons,
                @applyOne_nonmut _ cid CserverCmd.LOGIN (fun s => rfl)]
              rfl]
          exact hinv
      · obtain ⟨u, hu⟩ := sessionOk_username hokc hnew
        rcases hdm : decode_msg line with text | ts | _ | room | _ | room | _ | _ | _
        · -- ALL_CHAT
          by_cases hin : client.state = CserverClientState.IN_ROOM
          · rcases htg : client.targets with _ | ts
            · simp only [reduceCtorEq, dispatch, hcl, hnew, hdm, hin, htg, ne_eq, not_true_eq_false,
                if_neg, if_false, ite_false, not_false_eq_true, ite_true, if_true,
                Option.some.injEq, Prod.mk.injEq] at hd
              obtain ⟨h1, h2⟩ := hd
              subst h1
              subst h2
              rw [show applyDirectives st.sessions ((chatRecipients st client.roomname).map
                  (fun c => (c, CserverCmd.MSG client.username text))) = st.sessions from
                applyDirectives_map_nonmut (fun c s => rfl)]
              exact hinv
            · rcases hta : lookupAll ts st.user_clients with _ | tcids
              · simp only [reduceCtorEq, dispatch, hcl, hnew, hdm, hin, htg, hta, ne_eq,
                  not_true_eq_false, if_neg, if_false, ite_false, not_false_eq_true,
                  ite_true, if_true] at hd
              · simp only [reduceCtorEq, dispatch, hcl, hnew, hdm, hin, htg, hta, ne_eq,
                  not_true_eq_false, if_neg, if_false, ite_false, not_false_eq_true,
                  ite_true, if_true, Option.some.injEq, Prod.mk.injEq] at hd
                obtain ⟨h1, h2⟩ := hd
                subst h1
                subst h2
                rw [show applyDirectives st.sessions
                    ((filterInRoom st (tcids ++ [cid]) client.roomname).map
                      (fun c => (c, CserverCmd.MSG client.username text))) = st.sessions from
                  applyDirectives_map_nonmut (fun c s => rfl)]
                exact hinv
          · simp only [reduceCtorEq, dispatch, hcl, hnew, hdm, hin, ne_eq, not_false_eq_true, if_neg,
              if_false, ite_false, ite_true, if_true, Option.some.injEq,
              Prod.mk.injEq] at hd
            obtain ⟨h1, h2⟩ := hd
            subst h1
            subst h2
            rw [show applyDirectives st.sessions [(cid, CserverCmd.NOT_IN_ROOM)]
              = st.sessions from by
                rw [applyDirectives_cons,
                  @applyOne_nonmut _ cid CserverCmd.NOT_IN_ROOM (fun s => rfl)]
                rfl]
            exact hinv
        · -- PRIVATE_CMD
          by_cases hin : client.state = CserverClientState.IN_ROOM
          · obtain ⟨rn, u2, us, hrncl, hu2, husl, humem⟩ :=
              sessionOk_inRoom_data hokc hin hinv.2.2.1
            by_cases hlen : ts.length > 0
            · rcases hfind : ts.find? (fun t => decide (t ∉ us)) with _ | t
              · simp only [reduceCtorEq, dispatch, hcl, hnew, hdm, hin, hrncl, husl, hlen, hfind,
                  ne_eq, not_true_eq_false, if_neg, if_false, ite_false,
                  not_false_eq_true, ite_true, if_true, gt_iff_lt, Option.some.injEq,
                  Prod.mk.injEq] at hd
                obtain ⟨h1, h2⟩ := hd
                subst h1
                subst h2
                exact sinv_private hinv hcl hin
              · simp only [reduceCtorEq, dispatch, hcl, hnew, hdm, hin, hrncl, husl, hlen, hfind,
                  ne_eq, not_true_eq_false, if_neg, if_false, ite_false,
                  not_false_eq_true, ite_true, if_true, gt_iff_lt, Option.some.injEq,
                  Prod.mk.injEq] at hd
                obtain ⟨h1, h2⟩ := hd
                subst h1
                subst h2
                rw [show applyDirectives st.sessions [(cid, CserverCmd.INVALID_PRIVATE t)]
                  = st.sessions from by
                    rw [applyDirectives_cons,
                      @applyOne_nonmut _ cid (CserverCmd.INVALID_PRIVATE t) (fun s => rfl)]
                    rfl]
                exact hinv
            · simp only [reduceCtorEq, dispatch, hcl, hnew, hdm, hin, hrncl, husl, hlen, ne_eq,
                not_true_eq_false, if_neg, if_false, ite_false, not_false_eq_true,
                ite_true, if_true, gt_iff_lt, Option.some.injEq, Prod.mk.injEq] at hd
              obtain ⟨h1, h2⟩ := hd
              subst h1
              subst h2
              exact hinv
          · simp only [reduceCtorEq, dispatch, hcl, hnew, hdm, hin, ne_eq, not_false_eq_true, if_neg,
              if_false, ite_false, ite_true, if_true, Option.some.injEq,
              Prod.mk.injEq] at hd
            obtain ⟨h1, h2⟩ := hd
            subst h1
            subst h2
            rw [show applyDirectives st.sessions [(cid, CserverCmd.NOT_IN_ROOM)]
              = st.sessions from by
                rw [applyDirectives_cons,
                  @applyOne_nonmut _ cid CserverCmd.NOT_IN_ROOM (fun s => rfl)]
                rfl]
            exact hinv
        · -- PUBLIC_CMD
          by_cases hin : client.state = CserverClientState.IN_ROOM
          · simp only [reduceCtorEq, dispatch, hcl, hnew, hdm, hin, ne_eq, not_true_eq_false, if_neg,
              if_false, ite_false, not_false_eq_true, ite_true, if_true,
              Option.some.injEq, Prod.mk.injEq] at hd
            obtain ⟨h1, h2⟩ := hd
            subst h1
            subst h2
            exact sinv_public hinv hcl
          · simp only [reduceCtorEq, dispatch, hcl, hnew, hdm, hin, ne_eq, not_false_eq_true, if_neg,
              if_false, ite_false, ite_true, if_true, Option.some.injEq,
              Prod.mk.injEq] at hd
            obtain ⟨h1, h2⟩ := hd
            subst h1
            subst h2
            rw [show applyDirectives st.sessions [(cid, CserverCmd.NOT_IN_ROOM)]
              = st.sessions from by
                rw [applyDirectives_cons,
                  @applyOne_nonmut _ cid CserverCmd.NOT_IN_ROOM (fun s => rfl)]
                rfl]
            exact hinv
        · -- CREATE_ROOM_CMD
          rcases hro : alookup room st.room_users with _ | usr
          · by_cases hre : roomname_re_match room = false
            · simp only [reduceCtorEq, dispatch, hcl, hnew, hdm, hro, hre, Option.isSome_none,
                Bool.false_eq_true, if_false, ite_false, if_neg, ite_true, if_true,
                Option.some.injEq, Prod.mk.injEq] at hd
              obtain ⟨h1, h2⟩ := hd
              subst h1
              subst h2
              rw [show applyDirectives st.sessions [(cid, CserverCmd.INVALID_ROOMNAME)]
                = st.sessions from by
                  rw [applyDirectives_cons,
                    @applyOne_nonmut _ cid CserverCmd.INVALID_ROOMNAME (fun s => rfl)]
                  rfl]
              exact hinv
            · simp only [reduceCtorEq, dispatch, hcl, hnew, hdm, hro, hre, Option.isSome_none,
                Bool.false_eq_true, if_false, ite_false, if_neg, ite_true, if_true,
                Option.some.injEq, Prod.mk.injEq] at hd
              obtain ⟨h1, h2⟩ := hd
              subst h1
              subst h2
              rw [show applyDirectives st.sessions
                ((cid, CserverCmd.CREATE_ROOM client.username room) ::
                  (broadcastCreate st cid).map
                    (fun c => (c, CserverCmd.SEE_CREATE_ROOM client.username room)))
                = st.sessions from by
                  rw [applyDirectives_cons,
                    @applyOne_nonmut _ cid (CserverCmd.CREATE_ROOM client.username room)
                      (fun s => rfl)]
                  exact applyDirectives_map_nonmut (fun c s => rfl)]
              exact sinv_create hinv hro
          · simp only [reduceCtorEq, dispatch, hcl, hnew, hdm, hro, Option.isSome_some, if_true,
              ite_true, if_neg, if_false, ite_false, Option.some.injEq,
              Prod.mk.injEq] at hd
            obtain ⟨h1, h2⟩ := hd
            subst h1
            subst h2
            rw [show applyDirectives st.sessions [(cid, CserverCmd.EXISTING_ROOM room)]
              = st.sessions from by
                rw [applyDirectives_cons,
                  @applyOne_nonmut _ cid (CserverCmd.EXISTING_ROOM room) (fun s => rfl)]
                rfl]
            exact hinv
        · -- ROOMS_CMD
          simp only [dispatch, hcl, hnew, if_neg, hdm, if_false] at hd
          obtain ⟨h1, h2⟩ := Prod.mk.injEq .. |>.mp (Option.some.inj hd)
          subst h1
          subst h2
          rw [show applyDirectives st.sessions
            [(cid, CserverCmd.SHOW_ROOMS (get_room_list st.room_users))]
            = st.sessions from by
              rw [applyDirectives_cons,
                @applyOne_nonmut _ cid (CserverCmd.SHOW_ROOMS (get_room_list st.room_users))
                  (fun s => rfl)]
              rfl]
          exact hinv
        · -- JOIN_CMD
          rcases hro : alookup room st.room_users with _ | us0
          · simp only [reduceCtorEq, dispatch, hcl, hnew, hdm, hro, Option.some.injEq,
              Prod.mk.injEq, if_neg, if_false, ite_false, ite_true, if_true] at hd
            obtain ⟨h1, h2⟩ := hd
            subst h1
            subst h2
            rw [show applyDirectives st.sessions [(cid, CserverCmd.INVALID_ROOM room)]
              = st.sessions from by
                rw [applyDirectives_cons,
                  @applyOne_nonmut _ cid (CserverCmd.INVALID_ROOM room) (fun s => rfl)]
                rfl]
            exact hinv
          · by_cases hin : client.state = CserverClientState.IN_ROOM
            · obtain ⟨rn, u2, us, hrncl, hu2, husl, humem⟩ :=
                sessionOk_inRoom_data hokc hin hinv.2.2.1
              have hlook2 : alookup room (aset rn (us.erase u2) st.room_users)
                  = some (if rn = room then us.erase u2 else us0) := by
                by_cases hrr : rn = room
                · subst hrr
                  rw [if_pos rfl]
                  exact alookup_aset_self rn _ _
                · rw [if_neg hrr, alookup_aset_ne (fun he => hrr he.symm)]
                  exact hro
              simp only [reduceCtorEq, dispatch, hcl, hnew, hdm, hro, hin, hrncl, hu2,
                husl, humem, hlook2, ne_eq, not_true_eq_false, if_neg, if_false,
                ite_false, not_false_eq_true, ite_true, if_true, Option.some.injEq,
                Prod.mk.injEq, List.cons_append, List.nil_append] at hd
              obtain ⟨h1, h2⟩ := hd
              subst h1
              subst h2
              rw [show applyDirectives st.sessions
                  ((cid, CserverCmd.LEAVE_ROOM (some u2) (some rn)) ::
                    ((broadcastRoom st cid rn).map
                      (fun c => (c, CserverCmd.SEE_LEAVE_ROOM (some u2) (some rn))) ++
                      (cid, CserverCmd.JOIN_ROOM (some u2) room
                        (setAdd (if rn = room then us.erase u2 else us0) u2)) ::
                        (broadcastRoom st cid room).map
                          (fun c => (c, CserverCmd.SEE_JOIN_ROOM (some u2) room))))
                  = applyOne (applyOne st.sessions cid
                      (CserverCmd.LEAVE_ROOM (some u2) (some rn))) cid
                      (CserverCmd.JOIN_ROOM (some u2) room
                        (setAdd (if rn = room then us.erase u2 else us0) u2)) from by
                rw [applyDirectives_cons, applyDirectives_append]
                rw [show applyDirectives (applyOne st.sessions cid
                    (CserverCmd.LEAVE_ROOM (some u2) (some rn)))
                    ((broadcastRoom st cid rn).map
                      (fun c => (c, CserverCmd.SEE_LEAVE_ROOM (some u2) (some rn))))
                    = applyOne st.sessions cid
                        (CserverCmd.LEAVE_ROOM (some u2) (some rn)) from
                  applyDirectives_map_nonmut (fun c s => rfl)]
                rw [applyDirectives_cons]
                exact applyDirectives_map_nonmut (fun c s => rfl)]
              have hA := sinv_leave (some u2) (some rn) hinv hcl hin hrncl hu2 husl
              have hcl2 : alookup cid (applyOne st.sessions cid
                  (CserverCmd.LEAVE_ROOM (some u2) (some rn))) = some
                  { client with state := CserverClientState.LOGGED_IN, roomname := none, targets := none } :=
                alookup_applyOne_self hinv.1 hcl
              exact sinv_joinAdd (some u2) hA hcl2 rfl hu2 hlook2
            · simp only [reduceCtorEq, dispatch, hcl, hnew, hdm, hro, hin, hu, ne_eq,
                not_false_eq_true, if_neg, if_false, ite_false, ite_true, if_true,
                Option.some.injEq, Prod.mk.injEq, List.nil_append] at hd
              obtain ⟨h1, h2⟩ := hd
              subst h1
              subst h2
              rw [show applyDirectives st.sessions
                  ((cid, CserverCmd.JOIN_ROOM (some u) room (setAdd us0 u)) ::
                    (broadcastRoom st cid room).map
                      (fun c => (c, CserverCmd.SEE_JOIN_ROOM (some u) room)))
                  = applyOne st.sessions cid
                      (CserverCmd.JOIN_ROOM (some u) room (setAdd us0 u)) from by
                rw [applyDirectives_cons]
                exact applyDirectives_map_nonmut (fun c s => rfl)]
              exact sinv_joinAdd (some u) hinv hcl (state_logged_in hnew hin) hu hro
        · -- LEAVE_CMD
          by_cases hin : client.state = CserverClientState.IN_ROOM
          · obtain ⟨rn, u2, us, hrncl, hu2, husl, humem⟩ :=
              sessionOk_inRoom_data hokc hin hinv.2.2.1
            simp only [reduceCtorEq, dispatch, hcl, hnew, hdm, hin, hrncl, hu2, husl,
              humem, ne_eq, not_true_eq_false, if_neg, if_false, ite_false,
              not_false_eq_true, ite_true, if_true, Option.some.injEq,
              Prod.mk.injEq] at hd
            obtain ⟨h1, h2⟩ := hd
            subst h1
            subst h2
            rw [show applyDirectives st.sessions
                ((cid, CserverCmd.LEAVE_ROOM (some u2) (some rn)) ::
                  (broadcastRoom st cid rn).map
                    (fun c => (c, CserverCmd.SEE_LEAVE_ROOM (some u2) (some rn))))
                = applyOne st.sessions cid (CserverCmd.LEAVE_ROOM (some u2) (some rn)) from by
              rw [applyDirectives_cons]
              exact applyDirectives_map_nonmut (fun c s => rfl)]
            exact sinv_leave (some u2) (some rn) hinv hcl hin hrncl hu2 husl
          · simp only [reduceCtorEq, dispatch, hcl, hnew, hdm, hin, ne_eq,
              not_false_eq_true, if_neg, if_false, ite_false, ite_true, if_true,
              Option.some.injEq, Prod.mk.injEq] at hd
            obtain ⟨h1, h2⟩ := hd
            subst h1
            subst h2
            rw [show applyDirectives st.sessions [(cid, CserverCmd.NOT_IN_ROOM)]
              = st.sessions from by
                rw [applyDirectives_cons,
                  @applyOne_nonmut _ cid CserverCmd.NOT_IN_ROOM (fun s => rfl)]
                rfl]
            exact hinv
        · -- QUIT_CMD
          have hucm : (u, cid) ∈ st.user_clients := by
            have := hokc.2.2.1 u (by simp [hu])
            simpa using this
          have hucs : (alookup u st.user_clients).isSome = true :=
            alookup_isSome_iff.mpr (List.mem_map.mpr ⟨(u, cid), hucm, rfl⟩)
          by_cases hin : client.state = CserverClientState.IN_ROOM
          · obtain ⟨rn, u2, us, hrncl, hu2, husl, humem⟩ :=
              sessionOk_inRoom_data hokc hin hinv.2.2.1
            have hu2u : u2 = u := by
              rw [hu] at hu2
              exact (Option.some.inj hu2).symm
            rw [hu2u] at hu2 humem
            simp only [reduceCtorEq, dispatch, hcl, hnew, hdm, hin, hrncl, hu2, husl,
              humem, hucs, ne_eq, not_true_eq_false, if_neg, if_false, ite_false,
              not_false_eq_true, ite_true, if_true, Option.some.injEq, Prod.mk.injEq,
              List.cons_append, List.nil_append] at hd
            obtain ⟨h1, h2⟩ := hd
            subst h1
            subst h2
            rw [show applyDirectives st.sessions
                ((cid, CserverCmd.LEAVE_ROOM (some u) (some rn)) ::
                  ((broadcastRoom st cid rn).map
                    (fun c => (c, CserverCmd.SEE_LEAVE_ROOM (some u) (some rn))) ++
                    [(cid, CserverCmd.QUIT)]))
                = applyOne (applyOne st.sessions cid
                    (CserverCmd.LEAVE_ROOM (some u) (some rn))) cid CserverCmd.QUIT from by
              rw [applyDirectives_cons, applyDirectives_append]
              rw [show applyDirectives (applyOne st.sessions cid
                  (CserverCmd.LEAVE_ROOM (some u) (some rn)))
                  ((broadcastRoom st cid rn).map
                    (fun c => (c, CserverCmd.SEE_LEAVE_ROOM (some u) (some rn))))
                  = applyOne st.sessions cid (CserverCmd.LEAVE_ROOM (some u) (some rn)) from
                applyDirectives_map_nonmut (fun c s => rfl)]
              rfl]
            have hA := sinv_leave (some u) (some rn) hinv hcl hin hrncl hu2 husl
            have hcl2 : alookup cid (applyOne st.sessions cid
                (CserverCmd.LEAVE_ROOM (some u) (some rn))) = some
                { client with state := CserverClientState.LOGGED_IN, roomname := none, targets := none } :=
              alookup_applyOne_self hinv.1 hcl
            exact sinv_quitFinish hA hcl2 (by simp) hu2
          · simp only [reduceCtorEq, dispatch, hcl, hnew, hdm, hin, hu, hucs, ne_eq,
              not_false_eq_true, if_neg, if_false, ite_false, ite_true, if_true,
              Option.some.injEq, Prod.mk.injEq, List.nil_append] at hd
            obtain ⟨h1, h2⟩ := hd
            subst h1
            subst h2
            rw [show applyDirectives st.sessions [(cid, CserverCmd.QUIT)]
              = applyOne st.sessions cid CserverCmd.QUIT from rfl]
            exact sinv_quitFinish hinv hcl hin hu
        · -- UNKNOWN_CMD
          simp only [dispatch, hcl, hnew, if_neg, hdm, if_false] at hd
          obtain ⟨h1, h2⟩ := Prod.mk.injEq .. |>.mp (Option.some.inj hd)
          subst h1
          subst h2
          rw [show applyDirectives st.sessions [(cid, CserverCmd.INVALID_CMD)]
            = st.sessions from by
              rw [applyDirectives_cons,
                @applyOne_nonmut _ cid CserverCmd.INVALID_CMD (fun s => rfl)]
              rfl]
          exact hinv

theorem sinv_init {rooms : List String} (h : rooms.Nodup) : SInv (initState rooms) := by
  refine ⟨by simp [initState], by simp [initState], ?_, ?_, ?_, ?_, ?_⟩
  · simp only [initState]
    rw [show ((rooms.map (fun r => (r, ([] : List String)))).map Prod.fst) = rooms from by
      induction rooms with
      | nil => rfl
      | cons a t ih =>
        simp only [List.map_cons]
        rw [ih ((List.nodup_cons.mp h).2)]]
    exact h
  · intro p hp
    simp only [initState] at hp
    obtain ⟨r, _, rfl⟩ := List.mem_map.mp hp
    simp
  · intro p hp
    exact absurd hp (List.not_mem_nil p)
  · intro q hq
    exact absurd hq (List.not_mem_nil q)
  · intro p hp u hu
    simp only [initState] at hp
    obtain ⟨r, _, rfl⟩ := List.mem_map.mp hp
    simp at hu

theorem reach_inv {st st' : ServerState} {es : List Event}
    (hinv : SInv st) (h : reach st es = some st') : SInv st' := by
  induction es generalizing st with
  | nil =>
    rw [reach] at h
    exact (Option.some.inj h) ▸ hinv
  | cons e r ih =>
    rw [reach] at h
    rcases hs : stepSync st e with _ | st1
    · simp only [hs] at h
      exact absurd h (by simp)
    · simp only [hs] at h
      exact ih (stepSync_preserves hinv hs) h



/-! ## Claim C3: `_recv` failure reporting (code bug) -/

/-- C3: the claim says a zero-byte read or any I/O error is reported as
`EndOfStream` (`None`) and the inbound loop then exits without enqueuing.
The code contradicts its own docstring ("Return message (str) or None if
failure"): an I/O error makes `_recv` return `False`, and on that value
the inbound loop does not exit — it enqueues the Python value `False`
onto the shared inbound queue and keeps looping.  This theorem evaluates
the model at the failing input: one read that raises an I/O error,
followed by a normal read.  The zero-byte-read half of the claim does
hold (third conjunct). -/
theorem C3_recv_ioerror_returns_false :
    recvFrom [ReadChunk.ioError] "" = some (RecvResult.falseVal, [], "") ∧
    inboundRun [ReadChunk.ioError, ReadChunk.data "x\n"] ""
      = [InboundItem.boolFalse, InboundItem.str "x"] ∧
    (recvFrom [ReadChunk.data ""] "" = some (RecvResult.noneVal, [], "") ∧
      inboundRun [ReadChunk.data "", ReadChunk.data "x\n"] "" = []) := by
  refine ⟨rfl, by decide, rfl, by decide⟩

/-! ## Claim C4: line framing of the carry-over buffer (code bug) -/

/-- C4: the claim says successive `receiveLine` calls return exactly the
newline-delimited lines of the stream, in order, with no line lost or
merged.  The code's buffer update `'\n'.join(splitlines(buf)[1:])` drops
the newline that terminated an already-complete buffered line, so that
line is merged with the next chunk: with the chunks `"a\nb\n"` then
`"c\n"` the inbound loop produces the lines `"a"` and `"bc"`, although
the stream's lines are `"a"`, `"b"`, `"c"`. -/
theorem C4_recv_merges_buffered_lines :
    inboundRun [ReadChunk.data "a\nb\n", ReadChunk.data "c\n"] ""
      = [InboundItem.str "a", InboundItem.str "bc"] ∧
    pySplitlines ("a\nb\n" ++ "c\n") = ["a", "b", "c"] ∧
    [InboundItem.str "a", InboundItem.str "bc"]
      ≠ (pySplitlines ("a\nb\n" ++ "c\n")).map InboundItem.str := by
  refine ⟨by decide, by decide, by decide⟩

/-! ## Claim C9: the command codec on chat lines -/

/-- C9 (counterexample): the claim says a line not beginning with `/` is
returned as `Chat` verbatim, whitespace preserved.  `decode_msg` strips
the line first: `" hi "` decodes to `Chat "hi"`, not `Chat " hi "`. -/
theorem C9_cex_chat_not_verbatim :
    decode_msg " hi " = CserverMsgKind.ALL_CHAT "hi" ∧
    decode_msg " hi " ≠ CserverMsgKind.ALL_CHAT " hi " := by
  constructor
  · decide
  · decide

theorem listStarts_head {a : Char} {r l : List Char}
    (h : listStarts (a :: r) l = true) : listStarts [a] l = true := by
  cases l with
  | nil => simp [listStarts] at h
  | cons c cs =>
    simp only [listStarts, Bool.and_eq_true] at h ⊢
    exact ⟨h.1, trivial⟩

theorem pyStartswith_slash {m kw : String} (hk : kw.toList.head? = some '/')
    (h : pyStartswith m kw = true) : pyStartswith m "/" = true := by
  unfold pyStartswith at h ⊢
  rcases hkl : kw.toList with _ | ⟨c, r⟩
  · rw [hkl] at hk
    simp at hk
  · rw [hkl] at h
    rw [hkl] at hk
    simp only [List.head?_cons, Option.some.injEq] at hk
    subst hk
    exact listStarts_head h

/-- C9 (amended): `decode_msg` strips the line before doing anything
else; a line whose stripped form does not begin with `/` decodes to
`Chat` of the stripped line (leading/trailing whitespace removed, not
preserved); a line whose stripped form begins with `/` but passes none
of the seven keyword tests decodes to `Unknown`. -/
theorem C9_decode_chat_stripped (line : String) :
    (pyStartswith (pyStrip line) "/" = false →
      decode_msg line = CserverMsgKind.ALL_CHAT (pyStrip line)) ∧
    (pyStartswith (pyStrip line) "/" = true →
      pyStartswith (pyStrip line) "/create" = false →
      pyStartswith (pyStrip line) "/rooms" = false →
      pyStartswith (pyStrip line) "/join" = false →
      pyStartswith (pyStrip line) "/leave" = false →
      pyStartswith (pyStrip line) "/quit" = false →
      pyStartswith (pyStrip line) "/private" = false →
      pyStartswith (pyStrip line) "/public" = false →
      decode_msg line = CserverMsgKind.UNKNOWN_CMD) := by
  constructor
  · intro hs
    have mk : ∀ kw : String, kw.toList.head? = some '/' →
        pyStartswith (pyStrip line) kw = false := by
      intro kw hk
      cases hb : pyStartswith (pyStrip line) kw
      · rfl
      · have htrue := pyStartswith_slash hk hb
        rw [htrue] at hs
        exact absurd hs (by simp)
    rw [decode_msg]
    simp only [mk "/create" (by decide), mk "/rooms" (by decide), mk "/join" (by decide),
      mk "/leave" (by decide), mk "/quit" (by decide), mk "/private" (by decide),
      mk "/public" (by decide), hs, Bool.false_eq_true, if_false, ite_false]
  · intro hsl h1 h2 h3 h4 h5 h6 h7
    rw [decode_msg]
    simp only [h1, h2, h3, h4, h5, h6, h7, hsl, Bool.false_eq_true, if_false, ite_false,
      if_true, ite_true]

/-! ## Claim C2: name validation on login and /create -/

/-- C2 (counterexample): the claim says the empty name is rejected with
`InvalidName` and no registry entry is created.  The regex is `\w*$`,
which the empty string matches: a `NEW` client submitting the empty line
is welcomed and registered under the empty username. -/
theorem C2_cex_empty_name_accepted :
    dispatch ⟨[(0, newSession)], [], [("public", [])], ["public"]⟩ (.msg 0 "")
      = some (⟨[(0, newSession)], [("", 0)], [("public", [])], ["public"]⟩,
          [(0, CserverCmd.WELCOME_USER "")]) ∧
    username_re_match "" = true := by
  constructor
  · decide
  · decide



/-- C2 (amended): a login name (the raw line) or a `/create` room name
is accepted iff every character is a letter, digit or underscore — the
`\w*$` pattern also matches the empty string, so the empty name is
accepted, contrary to the claim's "non-empty" condition.  Rejected
names produce `InvalidName`/`InvalidRoomName` and leave the state
unchanged; accepted names create exactly the registry/room-table
entry. -/
theorem C2_name_validation (st : ServerState) (cid : Nat) (sess : Session)
    (line room : String)
    (hcl : alookup cid st.sessions = some sess) :
    (sess.state = CserverClientState.NEW → alookup line st.user_clients = none →
      (username_re_match line = false →
        dispatch st (.msg cid line)
          = some (st, [(cid, .INVALID_USERNAME), (cid, .LOGIN)])) ∧
      (username_re_match line = true →
        dispatch st (.msg cid line)
          = some ({ st with user_clients := aset line cid st.user_clients },
              [(cid, .WELCOME_USER line)]))) ∧
    (sess.state ≠ CserverClientState.NEW → decode_msg line = .CREATE_ROOM_CMD room →
      alookup room st.room_users = none →
      (roomname_re_match room = false →
        dispatch st (.msg cid line) = some (st, [(cid, .INVALID_ROOMNAME)])) ∧
      (roomname_re_match room = true →
        dispatch st (.msg cid line)
          = some ({ st with db_rooms := setAdd st.db_rooms room, room_users := aset room [] st.room_users },
              (cid, .CREATE_ROOM sess.username room) ::
                (broadcastCreate st cid).map
                  (fun c => (c, .SEE_CREATE_ROOM sess.username room))))) ∧
    (∀ s : String, username_re_match s = s.toList.all isWordChar) ∧
    username_re_match "" = true := by
  refine ⟨?_, ?_, fun s => rfl, by decide⟩
  · intro hnew hfresh
    constructor
    · intro hre
      simp [dispatch, hcl, hnew, hfresh, hre]
    · intro hre
      simp [dispatch, hcl, hnew, hfresh, hre]
  · intro hnew hdm hfresh
    constructor
    · intro hre
      simp [dispatch, hcl, hnew, hdm, hfresh, hre]
    · intro hre
      simp [dispatch, hcl, hnew, hdm, hfresh, hre]

theorem C2_name_validation_witness :
    alookup 0 (⟨[(0, newSession)], [], [("public", [])], ["public"]⟩ :
        ServerState).sessions = some newSession ∧
    ((newSession.state = CserverClientState.NEW →
      alookup "bad name!" (⟨[(0, newSession)], [], [("public", [])], ["public"]⟩ :
          ServerState).user_clients = none →
      (username_re_match "bad name!" = false →
        dispatch (⟨[(0, newSession)], [], [("public", [])], ["public"]⟩ : ServerState)
            (.msg 0 "bad name!")
          = some ((⟨[(0, newSession)], [], [("public", [])], ["public"]⟩ : ServerState),
              [(0, .INVALID_USERNAME), (0, .LOGIN)])) ∧
      (username_re_match "bad name!" = true →
        dispatch (⟨[(0, newSession)], [], [("public", [])], ["public"]⟩ : ServerState)
            (.msg 0 "bad name!")
          = some ({ (⟨[(0, newSession)], [], [("public", [])], ["public"]⟩ : ServerState)
                with user_clients := aset "bad name!" 0 [] },
              [(0, .WELCOME_USER "bad name!")]))) ∧
    (newSession.state ≠ CserverClientState.NEW →
      decode_msg "bad name!" = .CREATE_ROOM_CMD "nope" →
      alookup "nope" (⟨[(0, newSession)], [], [("public", [])], ["public"]⟩ :
          ServerState).room_users = none →
      (roomname_re_match "nope" = false →
        dispatch (⟨[(0, newSession)], [], [("public", [])], ["public"]⟩ : ServerState)
            (.msg 0 "bad name!")
          = some ((⟨[(0, newSession)], [], [("public", [])], ["public"]⟩ : ServerState),
              [(0, .INVALID_ROOMNAME)])) ∧
      (roomname_re_match "nope" = true →
        dispatch (⟨[(0, newSession)], [], [("public", [])], ["public"]⟩ : ServerState)
            (.msg 0 "bad name!")
          = some ({ (⟨[(0, newSession)], [], [("public", [])], ["public"]⟩ : ServerState)
                with db_rooms := setAdd ["public"] "nope",
                     room_users := aset "nope" [] [("public", [])] },
              (0, .CREATE_ROOM newSession.username "nope") ::
                (broadcastCreate (⟨[(0, newSession)], [], [("public", [])], ["public"]⟩ :
                    ServerState) 0).map
                  (fun c => (c, .SEE_CREATE_ROOM newSession.username "nope"))))) ∧
    (∀ s : String, username_re_match s = s.toList.all isWordChar) ∧
    username_re_match "" = true) :=
  ⟨by decide, C2_name_validation _ 0 newSession "bad name!" "nope" (by decide)⟩

/-! ## Claim C8: /private target setting -/

/-- C8 (counterexample): the claim says `/private` with a possibly empty
target sequence sets the session's targets to that sequence and emits
`NowPrivate`.  The code only acts when the list is non-empty: an
argument-less `/private` from a session whose targets are `["bob"]`
emits no directive at all and leaves the targets untouched. -/
theorem C8_cex_empty_private_ignored :
    decode_msg "/private" = CserverMsgKind.PRIVATE_CMD [] ∧
    dispatch (⟨[(0, ⟨.IN_ROOM, some "alice", some "public", some ["bob"]⟩),
        (1, ⟨.IN_ROOM, some "bob", some "public", none⟩)],
      [("alice", 0), ("bob", 1)], [("public", ["alice", "bob"])], ["public"]⟩ : ServerState)
      (.msg 0 "/private")
      = some ((⟨[(0, ⟨.IN_ROOM, some "alice", some "public", some ["bob"]⟩),
          (1, ⟨.IN_ROOM, some "bob", some "public", none⟩)],
        [("alice", 0), ("bob", 1)], [("public", ["alice", "bob"])], ["public"]⟩ :
          ServerState), []) := by
  constructor
  · decide
  · decide

/-- C8 (amended): a `/private` command from an `IN_ROOM` session whose
target list is non-empty and all of whose targets occupy the sender's
room sets the session's targets to exactly that list and emits a single
`NowPrivate` directive carrying it to the sender; a `/private` with an
empty target list emits nothing and changes nothing. -/
theorem C8_private_targets (st : ServerState) (cid : Nat) (sess : Session)
    (line : String) (ts : List String) (rn : String) (us : List String)
    (hcl : alookup cid st.sessions = some sess)
    (hst : sess.state = CserverClientState.IN_ROOM)
    (hdm : decode_msg line = .PRIVATE_CMD ts)
    (hrn : sess.roomname = some rn)
    (hus : alookup rn st.room_users = some us)
    (hall : ∀ t ∈ ts, t ∈ us) :
    (ts ≠ [] →
      dispatch st (.msg cid line) = some (st, [(cid, .PRIVATE ts)]) ∧
      ∃ st', stepSync st (.msg cid line) = some st' ∧
        alookup cid st'.sessions = some { sess with targets := some ts } ∧
        st'.room_users = st.room_users ∧ st'.user_clients = st.user_clients ∧
        (∀ c, c ≠ cid → alookup c st'.sessions = alookup c st.sessions)) ∧
    (ts = [] → dispatch st (.msg cid line) = some (st, []) ∧
      stepSync st (.msg cid line) = some st) := by
  have hfind : ts.find? (fun t => !decide (t ∈ us)) = none := by
    rw [List.find?_eq_none]
    intro t ht
    simp [hall t ht]
  constructor
  · intro hne
    have hlen : 0 < ts.length := List.length_pos.mpr hne
    have hdisp : dispatch st (.msg cid line) = some (st, [(cid, .PRIVATE ts)]) := by
      simp [dispatch, hcl, hst, hdm, hrn, hus, hlen, hfind]
    refine ⟨hdisp, ?_⟩
    refine ⟨{ st with sessions := applyOne st.sessions cid (.PRIVATE ts) }, ?_, ?_, rfl, rfl, ?_⟩
    · rw [stepSync, hdisp]
      rfl
    · show alookup cid (applyOne st.sessions cid (.PRIVATE ts)) = _
      exact alookup_applyOne_self' hcl rfl
    · intro c hc
      exact alookup_applyOne_ne hc
  · intro hteq
    subst hteq
    have hdisp : dispatch st (.msg cid line) = some (st, []) := by
      simp [dispatch, hcl, hst, hdm, hrn, hus]
    refine ⟨hdisp, ?_⟩
    rw [stepSync, hdisp]
    rfl



theorem C8_private_targets_witness :
    (alookup 0 (⟨[(0, ⟨.IN_ROOM, some "alice", some "public", none⟩),
        (1, ⟨.IN_ROOM, some "bob", some "public", none⟩)],
      [("alice", 0), ("bob", 1)], [("public", ["alice", "bob"])], ["public"]⟩ :
        ServerState).sessions
      = some ⟨.IN_ROOM, some "alice", some "public", none⟩) ∧
    ((["bob"] ≠ ([] : List String) →
      dispatch (⟨[(0, ⟨.IN_ROOM, some "alice", some "public", none⟩),
          (1, ⟨.IN_ROOM, some "bob", some "public", none⟩)],
        [("alice", 0), ("bob", 1)], [("public", ["alice", "bob"])], ["public"]⟩ :
          ServerState) (.msg 0 "/private bob")
        = some ((⟨[(0, ⟨.IN_ROOM, some "alice", some "public", none⟩),
            (1, ⟨.IN_ROOM, some "bob", some "public", none⟩)],
          [("alice", 0), ("bob", 1)], [("public", ["alice", "bob"])], ["public"]⟩ :
            ServerState), [(0, .PRIVATE ["bob"])]) ∧
      ∃ st', stepSync (⟨[(0, ⟨.IN_ROOM, some "alice", some "public", none⟩),
          (1, ⟨.IN_ROOM, some "bob", some "public", none⟩)],
        [("alice", 0), ("bob", 1)], [("public", ["alice", "bob"])], ["public"]⟩ :
          ServerState) (.msg 0 "/private bob") = some st' ∧
        alookup 0 st'.sessions
          = some ⟨.IN_ROOM, some "alice", some "public", some ["bob"]⟩ ∧
        st'.room_users = [("public", ["alice", "bob"])] ∧
        st'.user_clients = [("alice", 0), ("bob", 1)] ∧
        (∀ c, c ≠ 0 → alookup c st'.sessions
          = alookup c (⟨[(0, ⟨.IN_ROOM, some "alice", some "public", none⟩),
              (1, ⟨.IN_ROOM, some "bob", some "public", none⟩)],
            [("alice", 0), ("bob", 1)], [("public", ["alice", "bob"])], ["public"]⟩ :
              ServerState).sessions)) ∧
    (["bob"] = ([] : List String) →
      dispatch (⟨[(0, ⟨.IN_ROOM, some "alice", some "public", none⟩),
          (1, ⟨.IN_ROOM, some "bob", some "public", none⟩)],
        [("alice", 0), ("bob", 1)], [("public", ["alice", "bob"])], ["public"]⟩ :
          ServerState) (.msg 0 "/private bob")
        = some ((⟨[(0, ⟨.IN_ROOM, some "alice", some "public", none⟩),
            (1, ⟨.IN_ROOM, some "bob", some "public", none⟩)],
          [("alice", 0), ("bob", 1)], [("public", ["alice", "bob"])], ["public"]⟩ :
            ServerState), []) ∧
        stepSync (⟨[(0, ⟨.IN_ROOM, some "alice", some "public", none⟩),
            (1, ⟨.IN_ROOM, some "bob", some "public", none⟩)],
          [("alice", 0), ("bob", 1)], [("public", ["alice", "bob"])], ["public"]⟩ :
            ServerState) (.msg 0 "/private bob")
          = some (⟨[(0, ⟨.IN_ROOM, some "alice", some "public", none⟩),
              (1, ⟨.IN_ROOM, some "bob", some "public", none⟩)],
            [("alice", 0), ("bob", 1)], [("public", ["alice", "bob"])], ["public"]⟩ :
              ServerState))) :=
  ⟨by decide, C8_private_targets _ 0 ⟨.IN_ROOM, some "alice", some "public", none⟩
    "/private bob" ["bob"] "public" ["alice", "bob"] (by decide) rfl (by decide) rfl
    (by decide) (by decide)⟩

/-! ## Claim C1: chat fan-out with private targets -/

/-- C1 (counterexample): the claim says a target who is no longer an
occupant, *having left the room or quit*, is silently excluded from the
fan-out rather than causing an error.  In the reachable state where
alice (client 0) is `IN_ROOM` in `public` with targets `["bob"]` and bob
has quit (so `"bob"` is no longer a key of `user_clients`), alice's next
chat line makes the dispatcher evaluate `user_clients["bob"]`, a
`KeyError` that escapes the loop body: the dispatcher step is fatal
(`none`), and no `ChatLine` is delivered to anyone. -/
theorem C1_cex_quit_target_raises :
    reach (initState ["public"])
      [.newClient 0, .msg 0 "alice", .msg 0 "/join public",
       .newClient 1, .msg 1 "bob", .msg 1 "/join public",
       .msg 0 "/private bob", .msg 1 "/quit"]
      = some (⟨[(0, ⟨.IN_ROOM, some "alice", some "public", some ["bob"]⟩)],
          [("alice", 0)], [("public", ["alice"])], ["public"]⟩ : ServerState) ∧
    decode_msg "hi" = CserverMsgKind.ALL_CHAT "hi" ∧
    dispatch (⟨[(0, ⟨.IN_ROOM, some "alice", some "public", some ["bob"]⟩)],
        [("alice", 0)], [("public", ["alice"])], ["public"]⟩ : ServerState)
      (.msg 0 "hi") = none := by
  refine ⟨by decide, by decide, by decide⟩

/-! ## Claim C6: room occupancy invariant -/

/-- C6: in every state the dispatcher can reach from the initial state
by processing inbound events (under the serialized semantics in which
each emitted directive is consumed before the next event), a username
occupies at most one room, and membership of a username in a room's
occupancy set holds exactly when some live session holds that username
with state `IN_ROOM` and `roomname` equal to that room. -/
theorem C6_room_occupancy (rooms : List String) (events : List Event) (st : ServerState)
    (hnd : rooms.Nodup) (hr : reach (initState rooms) events = some st) :
    (∀ p ∈ st.room_users, ∀ q ∈ st.room_users, ∀ u : String,
      u ∈ p.2 → u ∈ q.2 → p.1 = q.1) ∧
    (∀ p ∈ st.room_users, ∀ u : String,
      u ∈ p.2 ↔ ∃ q ∈ st.sessions, q.2.username = some u ∧
        q.2.state = CserverClientState.IN_ROOM ∧ q.2.roomname = some p.1) := by
  have hinv := reach_inv (sinv_init hnd) hr
  obtain ⟨hndS, hndU, hndR, hocc, hreg, hok, hroom⟩ := hinv
  have hinv' : SInv st := ⟨hndS, hndU, hndR, hocc, hreg, hok, hroom⟩
  constructor
  · intro p hp q hq u hup huq
    obtain ⟨⟨c1, s1⟩, hm1, h11, h12, h13⟩ := hroom p hp u hup
    obtain ⟨⟨c2, s2⟩, hm2, h21, h22, h23⟩ := hroom q hq u huq
    obtain ⟨hc, hs⟩ := sinv_username_inj hinv' hm1 hm2 h11 h21
    rw [hs, h23] at h13
    exact (Option.some.inj h13).symm
  · intro p hp u
    constructor
    · intro hu
      exact hroom p hp u hu
    · rintro ⟨⟨qc, qs⟩, hq, h1, h2, h3⟩
      obtain ⟨rn, u2, us, hrncl, hu2, husl, humem⟩ :=
        sessionOk_inRoom_data (hok _ hq) h2 hndR
      have hrnp : rn = p.1 := by
        rw [hrncl] at h3
        exact Option.some.inj h3
      have hu2u : u2 = u := by
        rw [hu2] at h1
        exact Option.some.inj h1
      have hlookp : alookup p.1 st.room_users = some p.2 := by
        refine alookup_of_mem_nodup hndR ?_
        obtain ⟨p1, p2⟩ := p
        exact hp
      rw [hrnp, hlookp] at husl
      rw [hu2u] at humem
      rw [Option.some.inj husl]
      exact humem

theorem C6_room_occupancy_witness :
    ((["public"].Nodup) ∧
      reach (initState ["public"]) [.newClient 0, .msg 0 "a", .msg 0 "/join public"]
        = some (⟨[(0, ⟨.IN_ROOM, some "a", some "public", none⟩)], [("a", 0)],
            [("public", ["a"])], ["public"]⟩ : ServerState)) ∧
    ((∀ p ∈ (⟨[(0, ⟨.IN_ROOM, some "a", some "public", none⟩)], [("a", 0)],
        [("public", ["a"])], ["public"]⟩ : ServerState).room_users,
      ∀ q ∈ (⟨[(0, ⟨.IN_ROOM, some "a", some "public", none⟩)], [("a", 0)],
        [("public", ["a"])], ["public"]⟩ : ServerState).room_users,
      ∀ u : String, u ∈ p.2 → u ∈ q.2 → p.1 = q.1) ∧
    (∀ p ∈ (⟨[(0, ⟨.IN_ROOM, some "a", some "public", none⟩)], [("a", 0)],
        [("public", ["a"])], ["public"]⟩ : ServerState).room_users,
      ∀ u : String,
        u ∈ p.2 ↔ ∃ q ∈ (⟨[(0, ⟨.IN_ROOM, some "a", some "public", none⟩)], [("a", 0)],
          [("public", ["a"])], ["public"]⟩ : ServerState).sessions,
          q.2.username = some u ∧ q.2.state = CserverClientState.IN_ROOM ∧
            q.2.roomname = some p.1)) :=
  ⟨⟨by decide, by decide⟩,
    C6_room_occupancy ["public"] [.newClient 0, .msg 0 "a", .msg 0 "/join public"] _
      (by decide) (by decide)⟩

/-! ## Claim C10: private targets never survive leaving a room -/

/-- C10: consuming a `LeaveRoom` directive resets the session to
`LOGGED_IN` and clears `roomname` and `targets` (second conjunct, by
computation on `applyDirective`); and in every reachable state a session
whose state is not `IN_ROOM` has `targets = none`, so private targeting
never survives leaving a room (first conjunct, the inductive
invariant). -/
theorem C10_targets_cleared (rooms : List String) (events : List Event) (st : ServerState)
    (hnd : rooms.Nodup) (hr : reach (initState rooms) events = some st) :
    (∀ q ∈ st.sessions, q.2.state ≠ CserverClientState.IN_ROOM → q.2.targets = none) ∧
    (∀ (s : Session) (a b : Option String),
      applyDirective s (.LEAVE_ROOM a b)
        = some { s with state := CserverClientState.LOGGED_IN, roomname := none, targets := none }) := by
  have hinv := reach_inv (sinv_init hnd) hr
  exact ⟨fun q hq hne => ((hinv.2.2.2.2.2.1 _ hq).2.2.2.1 hne).2, fun s a b => rfl⟩

theorem C10_targets_cleared_witness :
    ((["public"].Nodup) ∧
      reach (initState ["public"])
        [.newClient 0, .msg 0 "a", .msg 0 "/join public", .msg 0 "/private a",
         .msg 0 "/leave"]
        = some (⟨[(0, ⟨.LOGGED_IN, some "a", none, none⟩)], [("a", 0)],
            [("public", [])], ["public"]⟩ : ServerState)) ∧
    ((∀ q ∈ (⟨[(0, ⟨.LOGGED_IN, some "a", none, none⟩)], [("a", 0)],
        [("public", [])], ["public"]⟩ : ServerState).sessions,
      q.2.state ≠ CserverClientState.IN_ROOM → q.2.targets = none) ∧
    (∀ (s : Session) (a b : Option String),
      applyDirective s (.LEAVE_ROOM a b)
        = some { s with state := CserverClientState.LOGGED_IN, roomname := none, targets := none })) :=
  ⟨⟨by decide, by decide⟩,
    C10_targets_cleared ["public"]
      [.newClient 0, .msg 0 "a", .msg 0 "/join public", .msg 0 "/private a",
       .msg 0 "/leave"] _ (by decide) (by decide)⟩



theorem lookupAll_eq_some {ts : List String} {uc : List (String × Nat)}
    (h : ∀ t ∈ ts, (alookup t uc).isSome = true) :
    ∃ tcids, lookupAll ts uc = some tcids ∧
      ∀ c : Nat, c ∈ tcids ↔ ∃ t ∈ ts, alookup t uc = some c := by
  induction ts with
  | nil => exact ⟨[], rfl, by simp⟩
  | cons t r ih =>
    have ht := h t (List.mem_cons_self _ _)
    rcases ha : alookup t uc with _ | c0
    · rw [ha] at ht
      simp at ht
    · obtain ⟨tcids, h1, h2⟩ := ih (fun t' ht' => h t' (List.mem_cons_of_mem _ ht'))
      refine ⟨c0 :: tcids, ?_, ?_⟩
      · rw [lookupAll, ha, h1]
        rfl
      · intro c
        simp only [List.mem_cons]
        constructor
        · rintro (rfl | hc)
          · exact ⟨t, Or.inl rfl, ha⟩
          · obtain ⟨t', ht', ha'⟩ := (h2 c).mp hc
            exact ⟨t', Or.inr ht', ha'⟩
        · rintro ⟨t', ht', ha'⟩
          rcases ht' with rfl | ht'
          · rw [ha] at ha'
            exact Or.inl (Option.some.inj ha').symm
          · exact Or.inr ((h2 c).mpr ⟨t', ht', ha'⟩)

theorem mem_filterInRoom {st : ServerState} {cids : List Nat} {rn : Option String}
    {c : Nat} :
    c ∈ filterInRoom st cids rn ↔
      c ∈ cids ∧ ∃ s', alookup c st.sessions = some s' ∧
        s'.state = CserverClientState.IN_ROOM ∧ s'.roomname = rn := by
  unfold filterInRoom
  rw [List.mem_filter]
  constructor
  · rintro ⟨h1, h2⟩
    refine ⟨h1, ?_⟩
    rcases ha : alookup c st.sessions with _ | s'
    · simp only [ha] at h2
      exact absurd h2 (by simp)
    · simp only [ha, decide_eq_true_eq] at h2
      exact ⟨s', rfl, h2.1, h2.2⟩
  · rintro ⟨h1, s', ha, h3, h4⟩
    refine ⟨h1, ?_⟩
    simp only [ha, decide_eq_true_eq]
    exact ⟨h3, h4⟩

/-- C1 (amended): a chat line from a user `U` who is `IN_ROOM` with
targets `{A,B}` is delivered, as `ChatLine` directives, to exactly the
sessions of `{U, A, B}` that are currently in `U`'s room — a target who
merely left the room (but is still registered) is silently excluded —
*provided every target is still a key of the user registry*.  (When a
target has quit, the claim fails: the dispatcher raises `KeyError`
instead of excluding them — see the counterexample.) -/
theorem C1_chat_fanout (st : ServerState) (cid : Nat) (sess : Session)
    (line text : String) (ts : List String)
    (hcl : alookup cid st.sessions = some sess)
    (hst : sess.state = CserverClientState.IN_ROOM)
    (hdm : decode_msg line = CserverMsgKind.ALL_CHAT text)
    (htg : sess.targets = some ts)
    (hreg : ∀ t ∈ ts, (alookup t st.user_clients).isSome = true) :
    ∃ ds, dispatch st (.msg cid line) = some (st, ds) ∧
      (∀ p ∈ ds, p.2 = CserverCmd.MSG sess.username text) ∧
      (∀ c : Nat, (∃ d, (c, d) ∈ ds) ↔
        ((c = cid ∨ ∃ t ∈ ts, alookup t st.user_clients = some c) ∧
         ∃ s', alookup c st.sessions = some s' ∧
           s'.state = CserverClientState.IN_ROOM ∧ s'.roomname = sess.roomname)) := by
  obtain ⟨tcids, hta, htc⟩ := lookupAll_eq_some hreg
  have hdisp : dispatch st (.msg cid line)
      = some (st, (filterInRoom st (tcids ++ [cid]) sess.roomname).map
          (fun c => (c, CserverCmd.MSG sess.username text))) := by
    simp [dispatch, hcl, hst, hdm, htg, hta]
  refine ⟨_, hdisp, ?_, ?_⟩
  · intro p hp
    obtain ⟨c, _, rfl⟩ := List.mem_map.mp hp
    rfl
  · intro c
    constructor
    · rintro ⟨d, hd⟩
      obtain ⟨c', hc', heq⟩ := List.mem_map.mp hd
      have hcc : c' = c := congrArg Prod.fst heq
      subst hcc
      obtain ⟨hmem, s', ha, h3, h4⟩ := mem_filterInRoom.mp hc'
      refine ⟨?_, s', ha, h3, h4⟩
      rcases List.mem_append.mp hmem with hmem | hmem
      · exact Or.inr ((htc c').mp hmem)
      · exact Or.inl (List.mem_singleton.mp hmem)
    · rintro ⟨hor, s', ha, h3, h4⟩
      refine ⟨CserverCmd.MSG sess.username text, List.mem_map.mpr ⟨c, ?_, rfl⟩⟩
      refine mem_filterInRoom.mpr ⟨?_, s', ha, h3, h4⟩
      rcases hor with rfl | ⟨t, ht, hat⟩
      · exact List.mem_append_right _ (by simp)
      · exact List.mem_append_left _ ((htc c).mpr ⟨t, ht, hat⟩)

theorem C1_chat_fanout_witness :
    (alookup 0 (⟨[(0, ⟨.IN_ROOM, some "alice", some "public", some ["bob"]⟩),
        (1, ⟨.LOGGED_IN, some "bob", none, none⟩),
        (2, ⟨.IN_ROOM, some "eve", some "public", none⟩)],
      [("alice", 0), ("bob", 1), ("eve", 2)], [("public", ["alice", "eve"])],
      ["public"]⟩ : ServerState).sessions
        = some ⟨.IN_ROOM, some "alice", some "public", some ["bob"]⟩ ∧
      decode_msg "hi" = CserverMsgKind.ALL_CHAT "hi" ∧
      (∀ t ∈ ["bob"], (alookup t (⟨[(0, ⟨.IN_ROOM, some "alice", some "public", some ["bob"]⟩),
        (1, ⟨.LOGGED_IN, some "bob", none, none⟩),
        (2, ⟨.IN_ROOM, some "eve", some "public", none⟩)],
      [("alice", 0), ("bob", 1), ("eve", 2)], [("public", ["alice", "eve"])],
      ["public"]⟩ : ServerState).user_clients).isSome = true)) ∧
    (∃ ds, dispatch (⟨[(0, ⟨.IN_ROOM, some "alice", some "public", some ["bob"]⟩),
        (1, ⟨.LOGGED_IN, some "bob", none, none⟩),
        (2, ⟨.IN_ROOM, some "eve", some "public", none⟩)],
      [("alice", 0), ("bob", 1), ("eve", 2)], [("public", ["alice", "eve"])],
      ["public"]⟩ : ServerState) (.msg 0 "hi") = some ((⟨[(0, ⟨.IN_ROOM, some "alice",
        some "public", some ["bob"]⟩),
        (1, ⟨.LOGGED_IN, some "bob", none, none⟩),
        (2, ⟨.IN_ROOM, some "eve", some "public", none⟩)],
      [("alice", 0), ("bob", 1), ("eve", 2)], [("public", ["alice", "eve"])],
      ["public"]⟩ : ServerState), ds) ∧
      (∀ p ∈ ds, p.2 = CserverCmd.MSG (some "alice") "hi") ∧
      (∀ c : Nat, (∃ d, (c, d) ∈ ds) ↔
        ((c = 0 ∨ ∃ t ∈ ["bob"], alookup t ([("alice", 0), ("bob", 1), ("eve", 2)] :
            List (String × Nat)) = some c) ∧
         ∃ s', alookup c ([(0, (⟨.IN_ROOM, some "alice", some "public", some ["bob"]⟩ : Session)),
            (1, ⟨.LOGGED_IN, some "bob", none, none⟩),
            (2, ⟨.IN_ROOM, some "eve", some "public", none⟩)] : List (Nat × Session))
              = some s' ∧
           s'.state = CserverClientState.IN_ROOM ∧ s'.roomname = some "public"))) :=
  ⟨⟨by decide, by decide, by decide⟩,
    C1_chat_fanout _ 0 ⟨.IN_ROOM, some "alice", some "public", some ["bob"]⟩ "hi" "hi"
      ["bob"] (by decide) rfl (by decide) rfl (by decide)⟩



/-- The guard of each protocol-level user error branch of the
dispatcher: name taken, invalid name, room exists, invalid room name,
unknown room, invalid private target or not-in-room for the commands
that require a room, and unrecognized command. -/
def protoErr (st : ServerState) (sess : Session) (line : String) : Prop :=
  (sess.state = CserverClientState.NEW ∧ (alookup line st.user_clients).isSome = true) ∨
  (sess.state = CserverClientState.NEW ∧ alookup line st.user_clients = none ∧
    username_re_match line = false) ∨
  (sess.state ≠ CserverClientState.NEW ∧
    ((∃ r, decode_msg line = CserverMsgKind.CREATE_ROOM_CMD r ∧
        ((alookup r st.room_users).isSome = true ∨
         (alookup r st.room_users = none ∧ roomname_re_match r = false))) ∨
     (∃ r, decode_msg line = CserverMsgKind.JOIN_CMD r ∧
        alookup r st.room_users = none) ∨
     (∃ ts, decode_msg line = CserverMsgKind.PRIVATE_CMD ts ∧
        (sess.state ≠ CserverClientState.IN_ROOM ∨
         (∃ rn us, sess.roomname = some rn ∧ alookup rn st.room_users = some us ∧
           0 < ts.length ∧ ∃ t, ts.find? (fun t => !decide (t ∈ us)) = some t))) ∨
     (decode_msg line = CserverMsgKind.PUBLIC_CMD ∧
       sess.state ≠ CserverClientState.IN_ROOM) ∨
     (decode_msg line = CserverMsgKind.LEAVE_CMD ∧
       sess.state ≠ CserverClientState.IN_ROOM) ∨
     (∃ text, decode_msg line = CserverMsgKind.ALL_CHAT text ∧
       sess.state ≠ CserverClientState.IN_ROOM) ∨
     decode_msg line = CserverMsgKind.UNKNOWN_CMD))

theorem stepSync_of_dispatch_id {st : ServerState} {e : Event}
    {ds : List (Nat × CserverCmd)}
    (hd : dispatch st e = some (st, ds))
    (hds : applyDirectives st.sessions ds = st.sessions) : stepSync st e = some st := by
  rw [stepSync, hd, Option.map_some']
  congr 1
  rw [hds]

/-- C5: on every protocol-level user error (name taken, invalid name,
room unknown or existing, invalid private target, not-in-room,
unrecognized command) the dispatcher leaves the whole shared state
unchanged — registry, room table, persisted room set and, after the
emitted directives are consumed, every session's logical state — and
enqueues directives only onto the originating client's outbound queue;
the step is never fatal. -/
theorem C5_protocol_errors (st : ServerState) (cid : Nat) (sess : Session) (line : String)
    (hcl : alookup cid st.sessions = some sess)
    (herr : protoErr st sess line) :
    ∃ ds, dispatch st (.msg cid line) = some (st, ds) ∧
      (∀ p ∈ ds, p.1 = cid) ∧
      applyDirectives st.sessions ds = st.sessions ∧
      stepSync st (.msg cid line) = some st := by
  rcases herr with ⟨hnew, htk⟩ | ⟨hnew, hfr, hre⟩ | ⟨hns, hrest⟩
  · rcases ha : alookup line st.user_clients with _ | c2
    · rw [ha] at htk
      simp at htk
    · have hdisp : dispatch st (.msg cid line)
          = some (st, [(cid, .EXISTING_USER), (cid, .LOGIN)]) := by
        simp [dispatch, hcl, hnew, ha]
      have hds : applyDirectives st.sessions
          [(cid, CserverCmd.EXISTING_USER), (cid, CserverCmd.LOGIN)] = st.sessions := by
        rw [applyDirectives_cons,
          @applyOne_nonmut _ cid CserverCmd.EXISTING_USER (fun s => rfl),
          applyDirectives_cons, @applyOne_nonmut _ cid CserverCmd.LOGIN (fun s => rfl)]
        rfl
      exact ⟨_, hdisp, by simp, hds, stepSync_of_dispatch_id hdisp hds⟩
  · have hdisp : dispatch st (.msg cid line)
        = some (st, [(cid, .INVALID_USERNAME), (cid, .LOGIN)]) := by
      simp [dispatch, hcl, hnew, hfr, hre]
    have hds : applyDirectives st.sessions
        [(cid, CserverCmd.INVALID_USERNAME), (cid, CserverCmd.LOGIN)] = st.sessions := by
      rw [applyDirectives_cons,
        @applyOne_nonmut _ cid CserverCmd.INVALID_USERNAME (fun s => rfl),
        applyDirectives_cons, @applyOne_nonmut _ cid CserverCmd.LOGIN (fun s => rfl)]
      rfl
    exact ⟨_, hdisp, by simp, hds, stepSync_of_dispatch_id hdisp hds⟩
  · rcases hrest with ⟨r, hdm, hcr⟩ | ⟨r, hdm, hro⟩ | ⟨ts, hdm, hpr⟩ |
      ⟨hdm, hnr⟩ | ⟨hdm, hnr⟩ | ⟨text, hdm, hnr⟩ | hdm
    · -- create: existing room or invalid room name
      rcases hcr with hex | ⟨hro, hre⟩
      · rcases ha : alookup r st.room_users with _ | usr
        · rw [ha] at hex
          simp at hex
        · have hdisp : dispatch st (.msg cid line)
              = some (st, [(cid, .EXISTING_ROOM r)]) := by
            simp [dispatch, hcl, hns, hdm, ha]
          have hds : applyDirectives st.sessions
              [(cid, CserverCmd.EXISTING_ROOM r)] = st.sessions := by
            rw [applyDirectives_cons,
              @applyOne_nonmut _ cid (CserverCmd.EXISTING_ROOM r) (fun s => rfl)]
            rfl
          exact ⟨_, hdisp, by simp, hds, stepSync_of_dispatch_id hdisp hds⟩
      · have hdisp : dispatch st (.msg cid line)
            = some (st, [(cid, .INVALID_ROOMNAME)]) := by
          simp [dispatch, hcl, hns, hdm, hro, hre]
        have hds : applyDirectives st.sessions
            [(cid, CserverCmd.INVALID_ROOMNAME)] = st.sessions := by
          rw [applyDirectives_cons,
            @applyOne_nonmut _ cid CserverCmd.INVALID_ROOMNAME (fun s => rfl)]
          rfl
        exact ⟨_, hdisp, by simp, hds, stepSync_of_dispatch_id hdisp hds⟩
    · -- join: unknown room
      have hdisp : dispatch st (.msg cid line)
          = some (st, [(cid, .INVALID_ROOM r)]) := by
        simp [dispatch, hcl, hns, hdm, hro]
      have hds : applyDirectives st.sessions
          [(cid, CserverCmd.INVALID_ROOM r)] = st.sessions := by
        rw [applyDirectives_cons,
          @applyOne_nonmut _ cid (CserverCmd.INVALID_ROOM r) (fun s => rfl)]
        rfl
      exact ⟨_, hdisp, by simp, hds, stepSync_of_dispatch_id hdisp hds⟩
    · -- private: not in room, or an offending target
      rcases hpr with hnr | ⟨rn, us, hrn, hus, hlen, t, hfind⟩
      · have hdisp : dispatch st (.msg cid line)
            = some (st, [(cid, .NOT_IN_ROOM)]) := by
          simp [dispatch, hcl, hns, hdm, hnr]
        have hds : applyDirectives st.sessions
            [(cid, CserverCmd.NOT_IN_ROOM)] = st.sessions := by
          rw [applyDirectives_cons,
            @applyOne_nonmut _ cid CserverCmd.NOT_IN_ROOM (fun s => rfl)]
          rfl
        exact ⟨_, hdisp, by simp, hds, stepSync_of_dispatch_id hdisp hds⟩
      · by_cases hin : sess.state = CserverClientState.IN_ROOM
        · have hdisp : dispatch st (.msg cid line)
              = some (st, [(cid, .INVALID_PRIVATE t)]) := by
            simp [dispatch, hcl, hns, hdm, hin, hrn, hus, hlen, hfind]
          have hds : applyDirectives st.sessions
              [(cid, CserverCmd.INVALID_PRIVATE t)] = st.sessions := by
            rw [applyDirectives_cons,
              @applyOne_nonmut _ cid (CserverCmd.INVALID_PRIVATE t) (fun s => rfl)]
            rfl
          exact ⟨_, hdisp, by simp, hds, stepSync_of_dispatch_id hdisp hds⟩
        · have hdisp : dispatch st (.msg cid line)
              = some (st, [(cid, .NOT_IN_ROOM)]) := by
            simp [dispatch, hcl, hns, hdm, hin]
          have hds : applyDirectives st.sessions
              [(cid, CserverCmd.NOT_IN_ROOM)] = st.sessions := by
            rw [applyDirectives_cons,
              @applyOne_nonmut _ cid CserverCmd.NOT_IN_ROOM (fun s => rfl)]
            rfl
          exact ⟨_, hdisp, by simp, hds, stepSync_of_dispatch_id hdisp hds⟩
    · -- public, not in room
      have hdisp : dispatch st (.msg cid line)
          = some (st, [(cid, .NOT_IN_ROOM)]) := by
        simp [dispatch, hcl, hns, hdm, hnr]
      have hds : applyDirectives st.sessions
          [(cid, CserverCmd.NOT_IN_ROOM)] = st.sessions := by
        rw [applyDirectives_cons,
          @applyOne_nonmut _ cid CserverCmd.NOT_IN_ROOM (fun s => rfl)]
        rfl
      exact ⟨_, hdisp, by simp, hds, stepSync_of_dispatch_id hdisp hds⟩
    · -- leave, not in room
      have hdisp : dispatch st (.msg cid line)
          = some (st, [(cid, .NOT_IN_ROOM)]) := by
        simp [dispatch, hcl, hns, hdm, hnr]
      have hds : applyDirectives st.sessions
          [(cid, CserverCmd.NOT_IN_ROOM)] = st.sessions := by
        rw [applyDirectives_cons,
          @applyOne_nonmut _ cid CserverCmd.NOT_IN_ROOM (fun s => rfl)]
        rfl
      exact ⟨_, hdisp, by simp, hds, stepSync_of_dispatch_id hdisp hds⟩
    · -- chat, not in room
      have hdisp : dispatch st (.msg cid line)
          = some (st, [(cid, .NOT_IN_ROOM)]) := by
        simp [dispatch, hcl, hns, hdm, hnr]
      have hds : applyDirectives st.sessions
          [(cid, CserverCmd.NOT_IN_ROOM)] = st.sessions := by
        rw [applyDirectives_cons,
          @applyOne_nonmut _ cid CserverCmd.NOT_IN_ROOM (fun s => rfl)]
        rfl
      exact ⟨_, hdisp, by simp, hds, stepSync_of_dispatch_id hdisp hds⟩
    · -- unrecognized command
      have hdisp : dispatch st (.msg cid line)
          = some (st, [(cid, .INVALID_CMD)]) := by
        simp [dispatch, hcl, hns, hdm]
      have hds : applyDirectives st.sessions
          [(cid, CserverCmd.INVALID_CMD)] = st.sessions := by
        rw [applyDirectives_cons,
          @applyOne_nonmut _ cid CserverCmd.INVALID_CMD (fun s => rfl)]
        rfl
      exact ⟨_, hdisp, by simp, hds, stepSync_of_dispatch_id hdisp hds⟩

theorem C5_protocol_errors_witness :
    (alookup 0 (⟨[(0, ⟨.LOGGED_IN, some "alice", none, none⟩)], [("alice", 0)],
        [("public", [])], ["public"]⟩ : ServerState).sessions
      = some ⟨.LOGGED_IN, some "alice", none, none⟩ ∧
      protoErr (⟨[(0, ⟨.LOGGED_IN, some "alice", none, none⟩)], [("alice", 0)],
        [("public", [])], ["public"]⟩ : ServerState)
        ⟨.LOGGED_IN, some "alice", none, none⟩ "/bogus") ∧
    (∃ ds, dispatch (⟨[(0, ⟨.LOGGED_IN, some "alice", none, none⟩)], [("alice", 0)],
        [("public", [])], ["public"]⟩ : ServerState) (.msg 0 "/bogus")
        = some ((⟨[(0, ⟨.LOGGED_IN, some "alice", none, none⟩)], [("alice", 0)],
          [("public", [])], ["public"]⟩ : ServerState), ds) ∧
      (∀ p ∈ ds, p.1 = 0) ∧
      applyDirectives (⟨[(0, ⟨.LOGGED_IN, some "alice", none, none⟩)], [("alice", 0)],
        [("public", [])], ["public"]⟩ : ServerState).sessions ds
        = (⟨[(0, ⟨.LOGGED_IN, some "alice", none, none⟩)], [("alice", 0)],
          [("public", [])], ["public"]⟩ : ServerState).sessions ∧
      stepSync (⟨[(0, ⟨.LOGGED_IN, some "alice", none, none⟩)], [("alice", 0)],
        [("public", [])], ["public"]⟩ : ServerState) (.msg 0 "/bogus")
        = some (⟨[(0, ⟨.LOGGED_IN, some "alice", none, none⟩)], [("alice", 0)],
          [("public", [])], ["public"]⟩ : ServerState)) :=
  ⟨⟨by decide, Or.inr (Or.inr ⟨by decide,
      Or.inr (Or.inr (Or.inr (Or.inr (Or.inr (Or.inr (by decide))))))⟩)⟩,
    C5_protocol_errors _ 0 ⟨.LOGGED_IN, some "alice", none, none⟩ "/bogus" (by decide)
      (Or.inr (Or.inr ⟨by decide,
        Or.inr (Or.inr (Or.inr (Or.inr (Or.inr (Or.inr (by decide))))))⟩))⟩



theorem alookup_mem {κ α : Type} [DecidableEq κ] {k : κ} {v : α} {l : List (κ × α)}
    (h : alookup k l = some v) : (k, v) ∈ l := by
  induction l with
  | nil => simp at h
  | cons p t ih =>
    obtain ⟨k', v'⟩ := p
    by_cases hk : k' = k
    · subst hk
      rw [alookup_cons, if_pos rfl] at h
      have hv : v' = v := by injection h
      exact List.mem_cons.mpr (Or.inl (by rw [hv]))
    · rw [alookup_cons, if_neg hk] at h
      exact List.mem_cons.mpr (Or.inr (ih h))

theorem leave_step {st : ServerState} {cid : Nat} {client : Session} {R : String}
    {us2 : List String} {u : String}
    (hcl : alookup cid st.sessions = some client)
    (hst : client.state = CserverClientState.IN_ROOM)
    (hrn : client.roomname = some R)
    (hu : client.username = some u)
    (hus : alookup R st.room_users = some us2)
    (hmem : u ∈ us2) :
    ∃ st2, stepSync st (.msg cid "/leave") = some st2 ∧
      st2.room_users = aset R (us2.erase u) st.room_users := by
  have hns : client.state ≠ CserverClientState.NEW := by rw [hst]; simp
  have hdm2 : decode_msg "/leave" = CserverMsgKind.LEAVE_CMD := by decide
  have hdisp : dispatch st (.msg cid "/leave") =
      some ({ st with room_users := aset R (us2.erase u) st.room_users },
        (cid, CserverCmd.LEAVE_ROOM client.username client.roomname) ::
          (broadcastRoom st cid R).map
            (fun c => (c, CserverCmd.SEE_LEAVE_ROOM client.username client.roomname))) := by
    simp [dispatch, hcl, hns, hdm2, hst, hrn, hu, hus, hmem]
  refine ⟨{ st with room_users := aset R (us2.erase u) st.room_users, sessions := applyOne st.sessions cid (CserverCmd.LEAVE_ROOM client.username client.roomname) }, ?_, rfl⟩
  rw [stepSync, hdisp, Option.map_some']
  congr 1
  rw [applyDirectives_cons]
  rw [show applyDirectives (applyOne st.sessions cid
        (CserverCmd.LEAVE_ROOM client.username client.roomname))
      ((broadcastRoom st cid R).map
        (fun c => (c, CserverCmd.SEE_LEAVE_ROOM client.username client.roomname)))
    = applyOne st.sessions cid
        (CserverCmd.LEAVE_ROOM client.username client.roomname) from
    applyDirectives_map_nonmut (fun c s => rfl)]

/-- C7: from any invariant-satisfying state, a logged-in user `u` who
is not an occupant of the existing room `R` and sends `/join R` and
then `/leave` restores `R`'s occupancy set to exactly its value before
the join, whether the user was previously in another room or in no
room. -/
theorem C7_join_then_leave (st : ServerState) (cid : Nat) (client : Session)
    (line R : String) (us : List String) (u : String)
    (hinv : SInv st)
    (hcl : alookup cid st.sessions = some client)
    (hns : client.state ≠ CserverClientState.NEW)
    (hu : client.username = some u)
    (hdm : decode_msg line = CserverMsgKind.JOIN_CMD R)
    (hR : alookup R st.room_users = some us)
    (hnm : u ∉ us) :
    ∃ st1 st2, stepSync st (.msg cid line) = some st1 ∧
      stepSync st1 (.msg cid "/leave") = some st2 ∧
      alookup R st2.room_users = some us := by
  have hndR : (st.room_users.map Prod.fst).Nodup := hinv.2.2.1
  have hok : sessionOk st cid client := hinv.2.2.2.2.2.1 (cid, client) (alookup_mem hcl)
  have herase : (us ++ [u]).erase u = us := by
    rw [List.erase_append_right _ hnm, List.erase_cons_head, List.append_nil]
  by_cases hin : client.state = CserverClientState.IN_ROOM
  · -- the user is currently in another room rn ≠ R
    obtain ⟨rn, u', us0, hrn, hu', hrus0, humem⟩ := sessionOk_inRoom_data hok hin hndR
    have huu : u' = u := by
      rw [hu] at hu'
      injection hu' with hv
      exact hv.symm
    subst huu
    have hne : rn ≠ R := by
      intro h
      rw [h, hR] at hrus0
      have he : us0 = us := by
        injection hrus0 with hv
        exact hv.symm
      rw [he] at humem
      exact hnm humem
    have hRa : alookup R (aset rn (us0.erase u') st.room_users) = some us := by
      rw [alookup_aset_ne (Ne.symm hne)]
      exact hR
    have hdisp1 : dispatch st (.msg cid line) =
        some ({ st with room_users := aset R (us ++ [u']) (aset rn (us0.erase u') st.room_users) },
          ((cid, CserverCmd.LEAVE_ROOM client.username client.roomname) ::
            (broadcastRoom st cid rn).map
              (fun c => (c, CserverCmd.SEE_LEAVE_ROOM client.username client.roomname))) ++
          (cid, CserverCmd.JOIN_ROOM client.username R (us ++ [u'])) ::
            (broadcastRoom st cid R).map
              (fun c => (c, CserverCmd.SEE_JOIN_ROOM client.username R))) := by
      simp [dispatch, hcl, hns, hdm, hR, hin, hrn, hu, hrus0, humem, hRa,
        setAdd_of_not_mem hnm]
    have happ1 : applyDirective client
        (CserverCmd.LEAVE_ROOM client.username client.roomname)
        = some { client with state := CserverClientState.LOGGED_IN, roomname := none, targets := none } := rfl
    have hcl1a : alookup cid (applyOne st.sessions cid
          (CserverCmd.LEAVE_ROOM client.username client.roomname))
        = some { client with state := CserverClientState.LOGGED_IN, roomname := none, targets := none } :=
      alookup_applyOne_self' hcl happ1
    have happ2 : applyDirective
        { client with state := CserverClientState.LOGGED_IN, roomname := none, targets := none }
        (CserverCmd.JOIN_ROOM client.username R (us ++ [u']))
        = some { client with state := CserverClientState.IN_ROOM, roomname := some R, targets := none } := by
      simp [applyDirective, hu]
    have hcl1 : alookup cid (applyOne (applyOne st.sessions cid
          (CserverCmd.LEAVE_ROOM client.username client.roomname)) cid
          (CserverCmd.JOIN_ROOM client.username R (us ++ [u'])))
        = some { client with state := CserverClientState.IN_ROOM, roomname := some R, targets := none } :=
      alookup_applyOne_self' hcl1a happ2
    have hstep1 : stepSync st (.msg cid line) =
        some { st with room_users := aset R (us ++ [u']) (aset rn (us0.erase u') st.room_users), sessions := applyOne (applyOne st.sessions cid (CserverCmd.LEAVE_ROOM client.username client.roomname)) cid (CserverCmd.JOIN_ROOM client.username R (us ++ [u'])) } := by
      rw [stepSync, hdisp1, Option.map_some']
      congr 1
      rw [List.cons_append, applyDirectives_cons, applyDirectives_append]
      rw [show applyDirectives (applyOne st.sessions cid
            (CserverCmd.LEAVE_ROOM client.username client.roomname))
          ((broadcastRoom st cid rn).map
            (fun c => (c, CserverCmd.SEE_LEAVE_ROOM client.username client.roomname)))
        = applyOne st.sessions cid
            (CserverCmd.LEAVE_ROOM client.username client.roomname) from
        applyDirectives_map_nonmut (fun c s => rfl)]
      rw [applyDirectives_cons]
      rw [show applyDirectives (applyOne (applyOne st.sessions cid
            (CserverCmd.LEAVE_ROOM client.username client.roomname)) cid
            (CserverCmd.JOIN_ROOM client.username R (us ++ [u'])))
          ((broadcastRoom st cid R).map
            (fun c => (c, CserverCmd.SEE_JOIN_ROOM client.username R)))
        = applyOne (applyOne st.sessions cid
            (CserverCmd.LEAVE_ROOM client.username client.roomname)) cid
            (CserverCmd.JOIN_ROOM client.username R (us ++ [u'])) from
        applyDirectives_map_nonmut (fun c s => rfl)]
    obtain ⟨st2, hstep2, hru2⟩ := @leave_step { st with room_users := aset R (us ++ [u']) (aset rn (us0.erase u') st.room_users), sessions := applyOne (applyOne st.sessions cid (CserverCmd.LEAVE_ROOM client.username client.roomname)) cid (CserverCmd.JOIN_ROOM client.username R (us ++ [u'])) } cid { client with state := CserverClientState.IN_ROOM, roomname := some R, targets := none } R (us ++ [u']) u' hcl1 rfl rfl hu (alookup_aset_self R (us ++ [u']) _) (by simp)
    refine ⟨_, st2, hstep1, hstep2, ?_⟩
    rw [hru2, herase]
    exact alookup_aset_self R us _
  · -- the user is logged in but currently in no room
    have hdisp1 : dispatch st (.msg cid line) =
        some ({ st with room_users := aset R (us ++ [u]) st.room_users },
          (cid, CserverCmd.JOIN_ROOM client.username R (us ++ [u])) ::
            (broadcastRoom st cid R).map
              (fun c => (c, CserverCmd.SEE_JOIN_ROOM client.username R))) := by
      simp [dispatch, hcl, hns, hdm, hR, hin, hu, setAdd_of_not_mem hnm]
    have happA : applyDirective client
        (CserverCmd.JOIN_ROOM client.username R (us ++ [u]))
        = some { client with state := CserverClientState.IN_ROOM, roomname := some R } := by
      simp [applyDirective, hu]
    have hclB : alookup cid (applyOne st.sessions cid
          (CserverCmd.JOIN_ROOM client.username R (us ++ [u])))
        = some { client with state := CserverClientState.IN_ROOM, roomname := some R } :=
      alookup_applyOne_self' hcl happA
    have hstep1 : stepSync st (.msg cid line) =
        some { st with room_users := aset R (us ++ [u]) st.room_users, sessions := applyOne st.sessions cid (CserverCmd.JOIN_ROOM client.username R (us ++ [u])) } := by
      rw [stepSync, hdisp1, Option.map_some']
      congr 1
      rw [applyDirectives_cons]
      rw [show applyDirectives (applyOne st.sessions cid
            (CserverCmd.JOIN_ROOM client.username R (us ++ [u])))
          ((broadcastRoom st cid R).map
            (fun c => (c, CserverCmd.SEE_JOIN_ROOM client.username R)))
        = applyOne st.sessions cid
            (CserverCmd.JOIN_ROOM client.username R (us ++ [u])) from
        applyDirectives_map_nonmut (fun c s => rfl)]
    obtain ⟨st2, hstep2, hru2⟩ := @leave_step { st with room_users := aset R (us ++ [u]) st.room_users, sessions := applyOne st.sessions cid (CserverCmd.JOIN_ROOM client.username R (us ++ [u])) } cid { client with state := CserverClientState.IN_ROOM, roomname := some R } R (us ++ [u]) u hclB rfl rfl hu (alookup_aset_self R (us ++ [u]) _) (by simp)
    refine ⟨_, st2, hstep1, hstep2, ?_⟩
    rw [hru2, herase]
    exact alookup_aset_self R us _

theorem C7_join_then_leave_witness :
    (reach (initState ["public"]) [.newClient 0, .msg 0 "alice"]
        = some (⟨[(0, ⟨.LOGGED_IN, some "alice", none, none⟩)], [("alice", 0)],
          [("public", [])], ["public"]⟩ : ServerState) ∧
      decode_msg "/join public" = CserverMsgKind.JOIN_CMD "public" ∧
      "alice" ∉ ([] : List String)) ∧
    (∃ st1 st2, stepSync (⟨[(0, ⟨.LOGGED_IN, some "alice", none, none⟩)], [("alice", 0)],
        [("public", [])], ["public"]⟩ : ServerState) (.msg 0 "/join public") = some st1 ∧
      stepSync st1 (.msg 0 "/leave") = some st2 ∧
      alookup "public" st2.room_users = some []) :=
  ⟨⟨by decide, by decide, by decide⟩,
    C7_join_then_leave _ 0 ⟨.LOGGED_IN, some "alice", none, none⟩ "/join public" "public"
      [] "alice" (@reach_inv (initState ["public"]) (⟨[(0, ⟨.LOGGED_IN, some "alice", none, none⟩)], [("alice", 0)], [("public", [])], ["public"]⟩ : ServerState) [Event.newClient 0, Event.msg 0 "alice"] (@sinv_init ["public"] (by decide)) (by decide)) (by decide) (by decide)
      (by decide) (by decide) (by decide) (by decide)⟩

theorem C9_decode_chat_stripped_witness :
    (pyStartswith (pyStrip " hi ") "/" = false ∧
      decode_msg " hi " = CserverMsgKind.ALL_CHAT (pyStrip " hi ")) ∧
    (pyStartswith (pyStrip "/bogus") "/" = true ∧
      decode_msg "/bogus" = CserverMsgKind.UNKNOWN_CMD) :=
  ⟨⟨by decide, (C9_decode_chat_stripped " hi ").1 (by decide)⟩,
    ⟨by decide, (C9_decode_chat_stripped "/bogus").2 (by decide) (by decide) (by decide)
      (by decide) (by decide) (by decide) (by decide) (by decide)⟩⟩

end Chat
